import Mathlib

/-!
Verification development for the utsuru WHIP-to-Discord bridge.

Shallow embedding of the core data structures and operations:
  * H.264 RTP depacketizer head/tail tests (src/utils/codecs.rs)
  * SPS VUI mutation applied on keyframes (src/mirrors/discord/mod.rs)
  * NAL-unit boundary scan of write_video_sample (src/mirrors/discord/mod.rs)
  * heartbeat task loop (src/mirrors/discord/heartbeat.rs)
  * DAVE transition execution (src/mirrors/discord/dave.rs)
  * WHIP command loop and mirror directory (src/sources/whip.rs)
  * bit reader/writer and exp-Golomb codes (src/utils/bitstream.rs,
    src/utils/h264_synthesizer.rs)
  * RTP sample builder (src/utils/io.rs)

Machine integers are modelled as Nat/Int with explicit wrapping where the
source can overflow; fallible operations return Option.
-/

namespace Utsuru

/-! ### H.264 depacketizer head/tail tests (src/utils/codecs.rs) -/

/-- H264Packet::is_partition_head.  Bytes are Nat values below 256; the masks
0x1F (NALU type) and 0x80 (FU start bit) are applied as in the source.
Payloads shorter than 2 bytes return false. -/
def isPartitionHead (payload : List Nat) : Bool :=
  if payload.length < 2 then false
  else if payload.getD 0 0 &&& 31 = 28 ∨ payload.getD 0 0 &&& 31 = 29 then
    decide (payload.getD 1 0 &&& 128 ≠ 0)
  else true

/-- H264Packet::is_partition_tail: the RTP marker bit, the payload is ignored. -/
def isPartitionTail (marker : Bool) (_payload : List Nat) : Bool := marker

/-! ### H.264 SPS structure and the Discord VUI fix

The SPS/VUI/HRD records are modelled from the spec and from the field set the
in-repo synthesizer (src/utils/h264_synthesizer.rs) writes; the parser module
itself (h264_parser.rs) is not among the sources.  The mutation below is the
code of DAVEInstance::write_video_sample, src/mirrors/discord/mod.rs. -/

/-- Modelled from the spec: HRD parameters (H.264 E.1.2), fields as written by
hrd_parameters in the synthesizer. -/
structure HrdParams where
  cpb_cnt_minus1 : Nat
  bit_rate_scale : Nat
  cpb_size_scale : Nat
  bit_rate_value_minus1 : List Nat
  cpb_size_value_minus1 : List Nat
  cbr_flag : List Bool
  initial_cpb_removal_delay_length_minus1 : Nat
  cpb_removal_delay_length_minus1 : Nat
  dpb_output_delay_length_minus1 : Nat
  time_offset_length : Nat
deriving DecidableEq, Repr

/-- Modelled from the spec: VUI parameters (H.264 E.1.1), fields as written by
vui_parameters in the synthesizer. -/
structure VuiParameters where
  aspect_ratio_info_present_flag : Bool
  aspect_ratio_idc : Nat
  sar_width : Nat
  sar_height : Nat
  overscan_info_present_flag : Bool
  overscan_appropriate_flag : Bool
  video_signal_type_present_flag : Bool
  video_format : Nat
  video_full_range_flag : Bool
  colour_description_present_flag : Bool
  colour_primaries : Nat
  transfer_characteristics : Nat
  matrix_coefficients : Nat
  chroma_loc_info_present_flag : Bool
  chroma_sample_loc_type_top_field : Nat
  chroma_sample_loc_type_bottom_field : Nat
  timing_info_present_flag : Bool
  num_units_in_tick : Nat
  time_scale : Nat
  fixed_frame_rate_flag : Bool
  nal_hrd_parameters_present_flag : Bool
  nal_hrd_parameters : HrdParams
  vcl_hrd_parameters_present_flag : Bool
  vcl_hrd_parameters : HrdParams
  low_delay_hrd_flag : Bool
  pic_struct_present_flag : Bool
  bitstream_restriction_flag : Bool
  motion_vectors_over_pic_boundaries_flag : Bool
  max_bytes_per_pic_denom : Nat
  max_bits_per_mb_denom : Nat
  log2_max_mv_length_horizontal : Nat
  log2_max_mv_length_vertical : Nat
  max_num_reorder_frames : Nat
  max_dec_frame_buffering : Nat
deriving DecidableEq, Repr

/-- Modelled from the spec: the parsed SPS (H.264 7.3.2.1.1), fields as written
by seq_parameter_set_data in the synthesizer. -/
structure Sps where
  profile_idc : Nat
  constraint_set0_flag : Bool
  constraint_set1_flag : Bool
  constraint_set2_flag : Bool
  constraint_set3_flag : Bool
  constraint_set4_flag : Bool
  constraint_set5_flag : Bool
  level_idc : Nat
  seq_parameter_set_id : Nat
  chroma_format_idc : Nat
  separate_colour_plane_flag : Bool
  bit_depth_luma_minus8 : Nat
  bit_depth_chroma_minus8 : Nat
  qpprime_y_zero_transform_bypass_flag : Bool
  seq_scaling_matrix_present_flag : Bool
  scaling_lists_4x4 : List (List Nat)
  scaling_lists_8x8 : List (List Nat)
  log2_max_frame_num_minus4 : Nat
  pic_order_cnt_type : Nat
  log2_max_pic_order_cnt_lsb_minus4 : Nat
  delta_pic_order_always_zero_flag : Bool
  offset_for_non_ref_pic : Int
  offset_for_top_to_bottom_field : Int
  num_ref_frames_in_pic_order_cnt_cycle : Nat
  offset_for_ref_frame : List Int
  max_num_ref_frames : Nat
  gaps_in_frame_num_value_allowed_flag : Bool
  pic_width_in_mbs_minus1 : Nat
  pic_height_in_map_units_minus1 : Nat
  frame_mbs_only_flag : Bool
  mb_adaptive_frame_field_flag : Bool
  direct_8x8_inference_flag : Bool
  frame_cropping_flag : Bool
  frame_crop_left_offset : Nat
  frame_crop_right_offset : Nat
  frame_crop_top_offset : Nat
  frame_crop_bottom_offset : Nat
  vui_parameters_present_flag : Bool
  vui_parameters : VuiParameters
deriving DecidableEq, Repr

/-- SPS mutation performed by DAVEInstance::write_video_sample on a type-7 NAL
unit (src/mirrors/discord/mod.rs lines 710-719): when the bitstream restriction
flag is unset, set it and fix the Discord-compatibility fields; otherwise the
SPS is left untouched. -/
def fixSpsVui (sps : Sps) : Sps :=
  if sps.vui_parameters.bitstream_restriction_flag then sps
  else
    { sps with vui_parameters :=
      { sps.vui_parameters with
        bitstream_restriction_flag := true
        motion_vectors_over_pic_boundaries_flag := true
        max_bytes_per_pic_denom := 2
        max_bits_per_mb_denom := 1
        log2_max_mv_length_horizontal := 16
        log2_max_mv_length_vertical := 16
        max_num_reorder_frames := 0
        max_dec_frame_buffering := sps.max_num_ref_frames } }

/-! ### NAL-unit boundary scan of write_video_sample (src/mirrors/discord/mod.rs)

The scan walks the Annex-B byte stream looking for 3- or 4-byte start codes.
The loop guard computes the usize difference payload.data.len() - 3; for data
shorter than 3 bytes that subtraction underflows and the code panics (overflow
check in a debug build, wrapped guard followed by an out-of-bounds index in a
release build).  The model returns none in that case. -/

/-- One pass of the start-code scan loop, with i the byte cursor; accumulates
(start index, start-code size) pairs.  Indices read inside the loop satisfy
i + 2 < data.length whenever 3 ≤ data.length, so getD never pads. -/
def naluScanLoop (data : List Nat) (i : Nat) (acc : List (Nat × Nat)) :
    List (Nat × Nat) :=
  if h : i < data.length - 3 then
    if data.getD (i + 2) 0 > 1 then
      naluScanLoop data (i + 3) acc
    else if data.getD (i + 1) 0 ≠ 0 then
      naluScanLoop data (i + 2) acc
    else if data.getD i 0 ≠ 0 ∨ data.getD (i + 2) 0 ≠ 1 then
      naluScanLoop data (i + 1) acc
    else if 1 ≤ i ∧ data.getD (i - 1) 0 = 0 then
      naluScanLoop data (i + 3) (acc ++ [(i - 1, 4)])
    else
      naluScanLoop data (i + 3) (acc ++ [(i, 3)])
  else acc
termination_by data.length - 3 - i
decreasing_by all_goals omega

/-- NAL-unit boundary scan of DAVEInstance::write_video_sample.  For data
shorter than 3 bytes the usize subtraction in the loop guard underflows and
the code panics, modelled as none. -/
def naluScan (data : List Nat) : Option (List (Nat × Nat)) :=
  if data.length < 3 then none
  else some (naluScanLoop data 0 [])

/-! ### Heartbeat task (src/mirrors/discord/heartbeat.rs)

One loop iteration after the op-3 send: the task races the nonce channel
against its notifier wake handle.  A wake breaks out of the loop and reaches
the notifier.close() call after it; a closed channel or a nonce mismatch
returns from the task directly, never reaching that call. -/

/-- Event observed by one heartbeat iteration. -/
inductive HBEvent where
  | wake
  | recv (nonce : Option Nat)
deriving DecidableEq, Repr

/-- Outcome of one heartbeat iteration: either the loop continues, or the task
ends, recording whether notifier.close() was reached on the way out. -/
inductive HBStep where
  | continueLoop
  | terminated (notifierClosed : Bool)
deriving DecidableEq, Repr

/-- One iteration of the heartbeat loop after sending nonce `sent`
(src/mirrors/discord/heartbeat.rs lines 50-66). -/
def hbIter (sent : Nat) (e : HBEvent) : HBStep :=
  match e with
  | .wake => .terminated true
  | .recv none => .terminated false
  | .recv (some m) => if m = sent then .continueLoop else .terminated false

/-! ### DAVE transition execution (src/mirrors/discord/dave.rs)

pending_transitions is a HashMap<u16, u16>; it is modelled as an association
list whose removal drops every binding of the key (a HashMap holds at most
one). -/

/-- Lookup in the pending-transitions map. -/
def lookupP (l : List (Nat × Nat)) (k : Nat) : Option Nat :=
  (l.find? (fun e => e.1 = k)).map (·.2)

/-- HashMap::remove. -/
def eraseK (l : List (Nat × Nat)) (k : Nat) : List (Nat × Nat) :=
  l.filter (fun e => decide (e.1 ≠ k))

/-- HashMap::insert (replaces any existing binding). -/
def insertK (l : List (Nat × Nat)) (k v : Nat) : List (Nat × Nat) :=
  (k, v) :: eraseK l k

/-- State touched by execute_pending_transition.  passthrough records the last
set_passthrough_mode call on the session as (flag, grace window). -/
structure DaveTransState where
  version : Nat
  pending : List (Nat × Nat)
  isDowngraded : Bool
  passthrough : Option (Bool × Nat)
deriving DecidableEq, Repr

/-- execute_pending_transition (src/mirrors/discord/dave.rs lines 362-385). -/
def executePendingTransition (st : DaveTransState) (tid : Nat) : DaveTransState :=
  let old := st.version
  match lookupP st.pending tid with
  | none => st
  | some newV =>
    let st1 : DaveTransState :=
      { st with pending := eraseK st.pending tid, version := newV }
    if old ≠ st1.version ∧ st1.version = 0 then
      { st1 with isDowngraded := true }
    else if 0 < tid ∧ st1.isDowngraded then
      { st1 with isDowngraded := false, passthrough := some (true, 10) }
    else st1

/-! ### WHIP command loop (src/sources/whip.rs lines 62-108)

The spawned task owns the boolean `active` (the spec's publisher_active) and
serialises all commands.  Only the admission-relevant shape of each command is
modelled: for NewRequest, whether init_peer succeeds. -/

/-- Commands consumed by the WHIP task. -/
inductive WhipCmd where
  | newRequest (initOk : Bool)
  | endRequest
  | retrieveMirrors
  | newMirror
  | endMirror
deriving DecidableEq, Repr

/-- Effect of one command on `active`: an accepted NewRequest (not already
active, init_peer succeeded) sets it, EndRequest clears it, everything else
leaves it. -/
def whipStep (active : Bool) : WhipCmd → Bool
  | .newRequest ok => if active then active else if ok then true else active
  | .endRequest => false
  | .retrieveMirrors => active
  | .newMirror => active
  | .endMirror => active

/-- publisher_active after processing a command sequence from startup. -/
def whipActive (cmds : List WhipCmd) : Bool :=
  cmds.foldl whipStep false

/-- The i-th command is a NewRequest that the loop accepts: init succeeds and
the publisher was not active when it arrived. -/
def acceptedAt (cmds : List WhipCmd) (i : Nat) : Prop :=
  cmds[i]? = some (WhipCmd.newRequest true) ∧ whipActive (cmds.take i) = false

/-- Some NewRequest in the history was accepted and no EndRequest has been
processed since. -/
def activeWitness (cmds : List WhipCmd) : Prop :=
  ∃ i, acceptedAt cmds i ∧
    ∀ j, i < j → cmds[j]? ≠ some WhipCmd.endRequest

/-! ### Mirror directory (src/sources/whip.rs lines 420-513)

map is the sparse id index, mirrors the rotating worklist of (id, sink); sinks
are abstracted to Nat tokens. -/

/-- The two coupled structures of WHIPInner. -/
structure WhipDir where
  map : List (Option Nat)
  mirrors : List (Nat × Nat)
deriving DecidableEq, Repr

/-- WHIPInner::add_mirror: remember the current queue length as the position,
append the sink under the next free id. -/
def addMirror (st : WhipDir) (sink : Nat) : WhipDir :=
  { map := st.map ++ [some st.mirrors.length],
    mirrors := st.mirrors ++ [(st.map.length, sink)] }

/-- WHIPInner::remove_mirror: look the id up, remove the recorded queue
position, clear the map slot.  A position beyond the queue makes
VecDeque::remove return None and the function bails out early. -/
def removeMirror (st : WhipDir) (id : Nat) : WhipDir :=
  match st.map[id]? with
  | none => st
  | some none => st
  | some (some seq) =>
    if seq < st.mirrors.length then
      { map := st.map.set id none, mirrors := st.mirrors.eraseIdx seq }
    else st

/-- One iteration of the fan-out pass: pop the front mirror, write (outcome
given by ok), on success record position seq and push back, on failure clear
the map slot and drop the sink. -/
def passStep (ok : Nat → Bool) (seq : Nat) (st : WhipDir) : WhipDir :=
  match st.mirrors with
  | [] => st
  | (id, sink) :: rest =>
    if ok id then
      { map := st.map.set id (some seq), mirrors := rest ++ [(id, sink)] }
    else
      { map := st.map.set id none, mirrors := rest }

/-- The `for seq in 0..len` loop of write_audio_sample / write_video_sample. -/
def passLoop (ok : Nat → Bool) (st : WhipDir) (seq fuel : Nat) : WhipDir :=
  match fuel with
  | 0 => st
  | f + 1 => passLoop ok (passStep ok seq st) (seq + 1) f

/-- One full fan-out pass of write_audio_sample / write_video_sample
(src/sources/whip.rs lines 457-493), with the write outcome of each mirror id
given by ok. -/
def writeSamplePass (ok : Nat → Bool) (st : WhipDir) : WhipDir :=
  passLoop ok st 0 st.mirrors.length

/-- The spec's directory invariant: every id mapped to Some pos has exactly
one queue entry, sitting at position pos; an id mapped to None has none. -/
def dirInvB (st : WhipDir) : Bool :=
  (List.range st.map.length).all fun id =>
    match st.map[id]? with
    | some (some pos) =>
      (match st.mirrors[pos]? with
       | some e => decide (e.1 = id)
       | none => false) &&
      decide ((st.mirrors.filter (fun e => e.1 = id)).length = 1)
    | some none => decide ((st.mirrors.filter (fun e => e.1 = id)).length = 0)
    | none => true

/-! ### Bit reader / writer (src/utils/bitstream.rs, src/utils/h264_synthesizer.rs)

Both sides are modelled at the bit level: the writer produces and the reader
consumes a List Bool, most significant bit first.  The reader state (byte
cursor, current byte, remaining-bit count) is abstracted to the list of
not-yet-consumed bits; emulation prevention is disabled (passthrough), as in
the synthesize_sps call of write_video_sample. -/

/-- Numeric value of a bit string, most significant bit first. -/
def bitsVal (bs : List Bool) : Nat :=
  bs.foldl (fun a b => 2 * a + b.toNat) 0

/-- BitWriter::write_f: emit the low `bits` bits of `value`, testing bit
(1 << b) for b in (0..bits).rev(). -/
def writeF (bits : Nat) (value : Nat) : List Bool :=
  (List.range bits).reverse.map (fun b => value.testBit b)

/-- BitReader::read_bits: fails when more than 31 bits are requested or the
stream runs out; otherwise the next n bits as an unsigned value. -/
def readBits (n : Nat) (bs : List Bool) : Option (Nat × List Bool) :=
  if 31 < n then none
  else if bs.length < n then none
  else some (bitsVal (bs.take n), bs.drop n)

/-- Leading-zero loop of BitReader::read_ue: consume bits until a set bit,
failing once more than 31 zeros have been counted or the stream ends; returns
the zero count with the stream after the terminating one bit. -/
def ueZeros : List Bool → Nat → Option (Nat × List Bool)
  | [], _ => none
  | true :: bs, k => some (k, bs)
  | false :: bs, k => if 31 < k + 1 then none else ueZeros bs (k + 1)

/-- BitReader::read_ue: unsigned exp-Golomb, (1 << k) - 1 plus a k-bit suffix,
failing when the checked 32-bit addition would overflow. -/
def readUe (bs : List Bool) : Option (Nat × List Bool) := do
  let (k, rest) ← ueZeros bs 0
  let (suffix, rest1) ← readBits k rest
  let v := 2 ^ k - 1 + suffix
  if 2 ^ 32 ≤ v then none else some (v, rest1)

/-- Wrapping cast of a 32-bit unsigned value to a signed one (ue as i32 in
read_se). -/
def u32ToI32 (v : Nat) : Int :=
  if v < 2 ^ 31 then (v : Int) else (v : Int) - 2 ^ 32

/-- BitReader::read_se: the unsigned code is cast to i32 (wrapping) and the
even/odd mapping is applied with truncating division; the source parity test
ue % 2 == 0 on the i32 equals parity of the unsigned code. -/
def readSe (bs : List Bool) : Option (Int × List Bool) := do
  let (ue, rest) ← readUe bs
  let uei := u32ToI32 ue
  if ue % 2 = 0 then some (-(Int.tdiv uei 2), rest)
  else some (Int.tdiv uei 2 + 1, rest)

/-- Synthesizer::write_exp_golumb: add one (checked in u32), then bits - 1
zeros followed by value + 1 in bits bits, where bits = 32 - leading_zeros,
i.e. log2 (value + 1) + 1. -/
def writeExpGolumb (value : Nat) : Option (List Bool) :=
  if 2 ^ 32 ≤ value + 1 then none
  else
    let v := value + 1
    let bits := Nat.log 2 v + 1
    some (writeF (bits - 1) 0 ++ writeF bits v)

/-- Synthesizer::write_ue. -/
def writeUe (value : Nat) : Option (List Bool) :=
  writeExpGolumb value

/-- Synthesizer::write_se: v ≤ 0 maps to 2|v| and v > 0 to 2|v| - 1, computed
in u32 (for v = -2^31 the doubling wraps to 0). -/
def writeSe (value : Int) : Option (List Bool) :=
  if value ≤ 0 then writeExpGolumb (2 * value.natAbs % 2 ^ 32)
  else writeExpGolumb (2 * value.natAbs - 1)

/-- Write a sequence of unsigned exp-Golomb values back to back. -/
def writeUeSeq : List Nat → Option (List Bool)
  | [] => some []
  | v :: vs => do
    let b ← writeUe v
    let rest ← writeUeSeq vs
    some (b ++ rest)

/-- Read n unsigned exp-Golomb values back to back. -/
def readUeSeq : Nat → List Bool → Option (List Nat × List Bool)
  | 0, bs => some ([], bs)
  | n + 1, bs => do
    let (v, rest) ← readUe bs
    let (vs, rest1) ← readUeSeq n rest
    some (v :: vs, rest1)

/-- Write a sequence of signed exp-Golomb values back to back. -/
def writeSeSeq : List Int → Option (List Bool)
  | [] => some []
  | v :: vs => do
    let b ← writeSe v
    let rest ← writeSeSeq vs
    some (b ++ rest)

/-- Read n signed exp-Golomb values back to back. -/
def readSeSeq : Nat → List Bool → Option (List Int × List Bool)
  | 0, bs => some ([], bs)
  | n + 1, bs => do
    let (v, rest) ← readSe bs
    let (vs, rest1) ← readSeSeq n rest
    some (v :: vs, rest1)

/-- Write fixed-width values back to back, each as (width, value). -/
def writeFSeq : List (Nat × Nat) → List Bool
  | [] => []
  | (w, v) :: vs => writeF w v ++ writeFSeq vs

/-- Read fixed-width values back to back for the given widths. -/
def readFSeq : List Nat → List Bool → Option (List Nat × List Bool)
  | [], bs => some ([], bs)
  | w :: ws, bs => do
    let (v, rest) ← readBits w bs
    let (vs, rest1) ← readFSeq ws rest
    some (v :: vs, rest1)

/-! ### RTP sample builder (src/utils/io.rs)

The builder is generic over the depacketizer trait; a Depack packages the
trait's three methods with an explicit state S (the &mut self of the Rust
trait).  Bytes are Nat lists, sequence numbers and timestamps Nat (u16/u32
values; streams under consideration never wrap).  Sample durations are kept in
ticks: the emitted durationSamples is the builder's samples counter, the Rust
Duration being samples / sample_rate seconds. -/

/-- RTP header fields the builder looks at. -/
structure RtpHeader where
  sequenceNumber : Nat
  timestamp : Nat
  marker : Bool
deriving DecidableEq, Repr

/-- An RTP packet. -/
structure RtpPacket where
  header : RtpHeader
  payload : List Nat
deriving DecidableEq, Repr

/-- Queue entry: packet plus head/tail flags derived at insertion. -/
structure Entry where
  header : RtpHeader
  payload : List Nat
  head : Bool
  tail : Bool
deriving DecidableEq, Repr

/-- The Depacketizer trait: a stateful depacketize (None = Err) and the
head/tail tests, which take the state read-only. -/
structure Depack (S : Type) where
  depacketize : S → List Nat → S × Option (List Nat)
  isHead : S → List Nat → Bool
  isTail : S → Bool → List Nat → Bool

/-- The H264Packet depacketizer's head/tail tests packaged as a Depack; the
depacketize field is irrelevant to the claims below and returns the payload. -/
def h264Depack : Depack Unit :=
  { depacketize := fun s p => (s, some p)
    isHead := fun _ p => isPartitionHead p
    isTail := fun _ m p => isPartitionTail m p }

/-- One emitted sample: data plus duration in ticks over sampleRate. -/
structure SampleOut where
  data : List Nat
  durationSamples : Nat
  sampleRate : Nat
deriving DecidableEq, Repr

/-- SampleBuilder state. -/
structure SampleBuilderS (S : Type) where
  holdBack : Nat
  dstate : S
  queue : List Entry
  segments : List (Nat × Nat)
  lastEmitted : Option Nat
  depackCache : Option ((Nat × Nat) × (Nat × List Nat))
  ready : Option (Nat × List Nat)
  sampleRate : Nat
  samples : Nat
deriving DecidableEq, Repr

/-- SampleBuilder::new. -/
def mkSampleBuilder (S : Type) (holdBack : Nat) (d0 : S) (sampleRate : Nat) :
    SampleBuilderS S :=
  ⟨holdBack, d0, [], [], none, none, none, sampleRate, 0⟩

/-- VecDeque::binary_search_by_key on the sequence numbers, modelled by its
contract on sorted keys (which the builder's queue maintains): inl the index
of a matching entry, inr the insertion index. -/
def binarySearchSeq (queue : List Entry) (seq : Nat) : Nat ⊕ Nat :=
  match queue.findIdx? (fun e => seq ≤ e.header.sequenceNumber) with
  | none => Sum.inr queue.length
  | some i =>
    match queue[i]? with
    | some e => if e.header.sequenceNumber = seq then Sum.inl i else Sum.inr i
    | none => Sum.inr i

/-- The early-drop test of SampleBuilder::push: sequence at or before the last
emitted one, when hold_back is positive. -/
def pushDrop (s : SampleBuilderS S) (seqn : Nat) : Bool :=
  match s.lastEmitted with
  | some last => decide (seqn ≤ last) && decide (0 < s.holdBack)
  | none => false

/-- The entry built at insertion time: head/tail flags asked from the
depacketizer at the current state. -/
def toEntry (d : Depack S) (st : S) (p : RtpPacket) : Entry :=
  ⟨p.header, p.payload, d.isHead st p.payload,
    d.isTail st p.header.marker p.payload⟩

/-- The queue ordering invariant: strictly increasing sequence numbers. -/
abbrev queueSorted (q : List Entry) : Prop :=
  q.Pairwise (fun a b => a.header.sequenceNumber < b.header.sequenceNumber)

/-- SampleBuilder::push (src/utils/io.rs lines 46-80): false when the packet
arrives at or before the last emitted sequence with hold_back > 0; duplicates
are not inserted (but still return true); otherwise the entry is inserted at
the binary-search position with head/tail derived from the depacketizer. -/
def push (d : Depack S) (s : SampleBuilderS S) (p : RtpPacket) :
    SampleBuilderS S × Bool :=
  if pushDrop s p.header.sequenceNumber then (s, false)
  else
    match binarySearchSeq s.queue p.header.sequenceNumber with
    | Sum.inl _ => (s, true)
    | Sum.inr i =>
      ({ s with queue := s.queue.insertIdx i (toEntry d s.dstate p) }, true)

/-- Tracked segment start of update_segments. -/
structure SegStart where
  index : Nat
  time : Nat
  offset : Int
deriving DecidableEq, Repr

/-- The update_segments scan loop (src/utils/io.rs lines 182-214); index is
the position of the first remaining entry.  The i64 saturating arithmetic of
the source cannot saturate for u16/usize inputs and is plain Int here. -/
def segScan : List Entry → Nat → Option SegStart → List (Nat × Nat) →
    List (Nat × Nat)
  | [], _, _, segs => segs
  | e :: rest, index, start, segs =>
    let iseq : Int := e.header.sequenceNumber
    let isExpectedSeq :=
      match start with
      | some st => decide (st.offset + (index : Int) = iseq)
      | none => false
    let isSameTimestamp :=
      match start with
      | some st => decide (st.time = e.header.timestamp)
      | none => false
    let isDefactoTail := isExpectedSeq && !isSameTimestamp
    let step1 : List (Nat × Nat) × Option SegStart :=
      match start with
      | some st =>
        if isDefactoTail then (segs ++ [(st.index, index - 1)], none)
        else (segs, some st)
      | none => (segs, none)
    let start2 :=
      if step1.2.isSome && (!isExpectedSeq || !isSameTimestamp) then none
      else step1.2
    let start3 :=
      if start2.isNone && e.head then
        some ⟨index, e.header.timestamp, iseq - (index : Int)⟩
      else start2
    let step4 : List (Nat × Nat) × Option SegStart :=
      match start3 with
      | some st =>
        if e.tail then (step1.1 ++ [(st.index, index)], none)
        else (step1.1, some st)
      | none => (step1.1, none)
    segScan rest (index + 1) step4.2 step4.1

/-- SampleBuilder::update_segments: clear and recompute the segment list. -/
def updateSegments (s : SampleBuilderS S) : SampleBuilderS S :=
  { s with segments := segScan s.queue 0 none [] }

/-- The loop of is_following_last over the entries before the segment start:
every one must be the next sequence number and an empty non-head non-tail
padding packet; returns the final sequence number on success. -/
def followLoop : List Entry → Nat → Option Nat
  | [], seq => some seq
  | e :: rest, seq =>
    let isNext :=
      decide (seq < e.header.sequenceNumber) &&
        decide (e.header.sequenceNumber - seq = 1)
    if !isNext then none
    else
      let isPadding := e.payload.isEmpty && !e.head && !e.tail
      if !isPadding then none
      else followLoop rest e.header.sequenceNumber

/-- SampleBuilder::is_following_last (src/utils/io.rs lines 219-243).  The
source indexes queue[start] via expect; reachable states keep start in bounds,
out of bounds is mapped to false. -/
def isFollowingLast (s : SampleBuilderS S) (start : Nat) : Bool :=
  match s.lastEmitted with
  | none => true
  | some last =>
    match followLoop (s.queue.take start) last with
    | none => false
    | some seq =>
      match s.queue[start]? with
      | none => false
      | some e =>
        decide (seq < e.header.sequenceNumber) &&
          decide (e.header.sequenceNumber - seq = 1)

/-- Depacketize a run of entries, threading the depacketizer state and
stopping at the first error, concatenating the outputs. -/
def depackFold (d : Depack S) : S → List Entry → S × Option (List Nat)
  | st, [] => (st, some [])
  | st, e :: rest =>
    let r := d.depacketize st e.payload
    match r.2 with
    | none => (r.1, none)
    | some bytes =>
      match depackFold d r.1 rest with
      | (st2, none) => (st2, none)
      | (st2, some bs) => (st2, some (bytes ++ bs))

/-- The uncached path of SampleBuilder::depacketize: take the timestamp of the
entry at start and fold the depacketizer over entries start..=stop. -/
def depacketizeGo (d : Depack S) (s : SampleBuilderS S) (start stop : Nat) :
    SampleBuilderS S × Option (Nat × List Nat) :=
  let ts := ((s.queue[start]?).map (·.header.timestamp)).getD 0
  let entries := (s.queue.drop start).take (stop + 1 - start)
  let r := depackFold d s.dstate entries
  ({ s with dstate := r.1 }, r.2.map (fun bs => (ts, bs)))

/-- SampleBuilder::depacketize (src/utils/io.rs lines 140-168): the cache is
taken unconditionally and used only when it covers exactly start..stop. -/
def depacketizeRange (d : Depack S) (s : SampleBuilderS S) (start stop : Nat) :
    SampleBuilderS S × Option (Nat × List Nat) :=
  match s.depackCache with
  | some (r, v) =>
    if r = (start, stop) then ({ s with depackCache := none }, some v)
    else depacketizeGo d { s with depackCache := none } start stop
  | none => depacketizeGo d s start stop

/-- SampleBuilder::pop (src/utils/io.rs lines 82-138). -/
def pop (d : Depack S) (s : SampleBuilderS S) :
    SampleBuilderS S × Option SampleOut :=
  let s0 := updateSegments s
  match s0.segments.head? with
  | none => (s0, none)
  | some (start, stop) =>
    let seq := ((s0.queue[stop]?).map (·.header.sequenceNumber)).getD 0
    let r := depacketizeRange d s0 start stop
    let s1 := r.1
    match r.2 with
    | none =>
      ({ s1 with lastEmitted := some seq, queue := s1.queue.drop (stop + 1) },
        none)
    | some dep =>
      let moreThanHoldBack := decide (s1.holdBack ≤ s1.segments.length)
      let contiguousSeq := isFollowingLast s1 start
      if !contiguousSeq && !moreThanHoldBack then
        ({ s1 with depackCache := some ((start, stop), dep) }, none)
      else
        let s2 := { s1 with queue := s1.queue.drop (stop + 1),
                            lastEmitted := some seq }
        let afterTimestamp := dep.1
        let ready := s2.ready
        let s3 := { s2 with ready := some dep }
        match ready with
        | none => (s3, none)
        | some rd =>
          let samples := afterTimestamp - rd.1
          let s4 := if 0 < samples then { s3 with samples := samples } else s3
          (s4, some ⟨rd.2, s4.samples, s4.sampleRate⟩)

/-- Push a list of packets in order. -/
def pushAll (d : Depack S) (s : SampleBuilderS S) (ps : List RtpPacket) :
    SampleBuilderS S :=
  ps.foldl (fun st p => (push d st p).1) s

/-- Pop n times, collecting each return value. -/
def popN (d : Depack S) (s : SampleBuilderS S) :
    Nat → SampleBuilderS S × List (Option SampleOut)
  | 0 => (s, [])
  | n + 1 =>
    let r := pop d s
    let r2 := popN d r.1 n
    (r2.1, r.2 :: r2.2)

/-! ### In-order stream specification for the sample builder

A flag-delimited in-order stream is given as groups (timestamp, payloads with
marker); the specification-side functions below compute the packet stream,
the queue entries it produces, the expected segment boundaries and the
expected pop outputs. -/

/-- A depacketizer instance with identity payload output, every payload a
head and the marker the tail, instantiating the generic builder. -/
def idDepack : Depack Unit :=
  { depacketize := fun s p => (s, some p)
    isHead := fun _ _ => true
    isTail := fun _ m _ => m }

/-- Timestamp of a group of entries (the first entry's timestamp). -/
def tsOfGroup : List Entry → Nat
  | [] => 0
  | e :: _ => e.header.timestamp

/-- A well-formed segment group: nonempty, first entry flagged head, last
entry flagged tail, inner entries not tails, all sharing the group
timestamp. -/
def GroupWF (g : List Entry) : Prop :=
  g ≠ [] ∧
  (∀ e0, g.head? = some e0 → e0.head = true) ∧
  (∀ el, g.getLast? = some el → el.tail = true) ∧
  (∀ e ∈ g.dropLast, e.tail = false) ∧
  (∀ e ∈ g, e.header.timestamp = tsOfGroup g)

/-- Consecutive sequence numbering of the flattened groups starting at q. -/
def ConsecFrom : Nat → List (List Entry) → Prop
  | _, [] => True
  | q, g :: gs =>
    g.map (fun e => e.header.sequenceNumber) = List.range' q g.length ∧
      ConsecFrom (q + g.length) gs

/-- Expected segment boundaries of the groups, as index pairs from i0. -/
def boundaries : Nat → List Nat → List (Nat × Nat)
  | _, [] => []
  | i0, l :: ls => (i0, i0 + l - 1) :: boundaries (i0 + l) ls

/-- Packets of one group: timestamp t, consecutive sequences from s0. -/
def pgPackets (t : Nat) : Nat → List (List Nat × Bool) → List RtpPacket
  | _, [] => []
  | s0, p :: ps => ⟨⟨s0, t, p.2⟩, p.1⟩ :: pgPackets t (s0 + 1) ps

/-- The packet stream of a list of (timestamp, payloads) groups, sequence
numbers consecutive from seq0 across groups. -/
def packetsOf : Nat → List (Nat × List (List Nat × Bool)) → List RtpPacket
  | _, [] => []
  | seq0, (t, ps) :: rest =>
    pgPackets t seq0 ps ++ packetsOf (seq0 + ps.length) rest

/-- The queue-entry groups the stream produces once pushed. -/
def groupsOf (d : Depack S) (d0 : S) : Nat →
    List (Nat × List (List Nat × Bool)) → List (List Entry)
  | _, [] => []
  | seq0, (t, ps) :: rest =>
    (pgPackets t seq0 ps).map (toEntry d d0) ::
      groupsOf d d0 (seq0 + ps.length) rest

/-- Depacketize a list of payloads, threading the state and stopping at the
first error. -/
def depackPayloads (d : Depack S) : S → List (List Nat) →
    S × Option (List Nat)
  | st, [] => (st, some [])
  | st, p :: rest =>
    let r := d.depacketize st p
    match r.2 with
    | none => (r.1, none)
    | some bytes =>
      match depackPayloads d r.1 rest with
      | (st2, none) => (st2, none)
      | (st2, some bs) => (st2, some (bytes ++ bs))

/-- Timestamps and depacketised concatenations of the groups, threading the
depacketizer state through the stream. -/
def infosOf (d : Depack S) : S → List (Nat × List (List Nat × Bool)) →
    List (Nat × List Nat)
  | _, [] => []
  | st, (t, ps) :: rest =>
    let r := depackPayloads d st (ps.map Prod.fst)
    (t, r.2.getD []) :: infosOf d r.1 rest

/-- Same, computed from entry groups through depackFold. -/
def groupInfos (d : Depack S) : S → List (List Entry) →
    List (Nat × List Nat)
  | _, [] => []
  | st, g :: gs =>
    (tsOfGroup g, ((depackFold d st g).2).getD []) ::
      groupInfos d (depackFold d st g).1 gs

/-- What successive pops return, mirroring the emission bookkeeping of pop:
ready is the buffered sample, samples the duration counter. -/
def runOutputs (rate : Nat) : Option (Nat × List Nat) → Nat →
    List (Nat × List Nat) → List (Option SampleOut)
  | _, _, [] => []
  | ready, samples, (t, dta) :: rest =>
    match ready with
    | none => none :: runOutputs rate (some (t, dta)) samples rest
    | some rd =>
      some ⟨rd.2, if 0 < t - rd.1 then t - rd.1 else samples, rate⟩ ::
        runOutputs rate (some (t, dta))
          (if 0 < t - rd.1 then t - rd.1 else samples) rest

/-- Emissions after the first: each buffered group with duration the
timestamp difference to the following group. -/
def emitSeq (rate : Nat) : (Nat × List Nat) → List (Nat × List Nat) →
    List (Option SampleOut)
  | _, [] => []
  | prev, (t, dta) :: rest =>
    some ⟨prev.2, t - prev.1, rate⟩ :: emitSeq rate (t, dta) rest

/-- The claim's expected outputs: the first pop yields nothing (one-cycle
buffering), then each group's depacketised concatenation with duration
timestamp[i+1] - timestamp[i] over the sample rate. -/
def claimOutputs (rate : Nat) : List (Nat × List Nat) →
    List (Option SampleOut)
  | [] => []
  | info :: rest => none :: emitSeq rate info rest

/-! ### Example values used by witnesses -/

/-- An all-zero HRD record. -/
def hrdEx : HrdParams := ⟨0, 0, 0, [], [], [], 0, 0, 0, 0⟩

/-- A VUI record with bitstream_restriction_flag unset. -/
def vuiEx : VuiParameters :=
  ⟨false, 0, 0, 0, false, false, false, 0, false, false, 0, 0, 0, false, 0, 0,
    false, 0, 0, false, false, hrdEx, false, hrdEx, false, false, false, false,
    0, 0, 0, 0, 0, 0⟩

/-- A baseline SPS with max_num_ref_frames = 3 and vuiEx as its VUI. -/
def spsEx : Sps :=
  ⟨66, false, false, false, false, false, false, 30, 0, 1, false, 0, 0, false,
    false, [], [], 0, 0, 0, false, 0, 0, 0, [], 3, false, 0, 0, true, false,
    true, false, 0, 0, 0, 0, true, vuiEx⟩

/-! ## Theorems -/

/-- Removing a key from the pending map leaves no binding for it. -/
theorem lookupP_eraseK (l : List (Nat × Nat)) (k : Nat) :
    lookupP (eraseK l k) k = none := by
  unfold lookupP eraseK
  cases hfind : List.find? (fun e => decide (e.1 = k))
      (List.filter (fun e => decide (e.1 ≠ k)) l) with
  | none => rfl
  | some x =>
    have hmem := List.mem_of_find?_eq_some hfind
    have hpred := List.find?_some hfind
    have hne := (List.mem_filter.mp hmem).2
    simp only [decide_eq_true_eq] at hpred hne
    exact absurd hpred hne

/-! ### Claim C1 — the mirror directory invariant -/

/-- Claim C1 (code bug evidence): after admitting mirrors with sinks 10, 11,
12 the directory invariant holds, but a single fan-out pass in which mirror
id 1's write fails leaves map = [Some 0, None, Some 2] with the queue
[(0,10), (2,12)]: id 2 sits at queue position 1 while map records position 2,
so the claimed invariant is not preserved by the eviction pass. -/
theorem mirror_directory_invariant_broken :
    dirInvB (addMirror (addMirror (addMirror ⟨[], []⟩ 10) 11) 12) = true ∧
    writeSamplePass (fun id => decide (id ≠ 1))
        (addMirror (addMirror (addMirror ⟨[], []⟩ 10) 11) 12) =
      ⟨[some 0, none, some 2], [(0, 10), (2, 12)]⟩ ∧
    dirInvB ⟨[some 0, none, some 2], [(0, 10), (2, 12)]⟩ = false := by
  decide

/-! ### Claim C3 — the SPS VUI fix -/

/-- Claim C3: parsing an SPS whose VUI bitstream_restriction_flag is false,
the rewriter sets that flag together with exactly the seven
Discord-compatibility fields (max_dec_frame_buffering taking
max_num_ref_frames) and leaves every other SPS and VUI field unchanged; an
SPS whose flag is already set is returned untouched. -/
theorem sps_vui_fix (sps : Sps) :
    (sps.vui_parameters.bitstream_restriction_flag = true →
      fixSpsVui sps = sps) ∧
    (sps.vui_parameters.bitstream_restriction_flag = false →
      ((fixSpsVui sps).vui_parameters.bitstream_restriction_flag = true ∧
       (fixSpsVui sps).vui_parameters.motion_vectors_over_pic_boundaries_flag
         = true ∧
       (fixSpsVui sps).vui_parameters.max_bytes_per_pic_denom = 2 ∧
       (fixSpsVui sps).vui_parameters.max_bits_per_mb_denom = 1 ∧
       (fixSpsVui sps).vui_parameters.log2_max_mv_length_horizontal = 16 ∧
       (fixSpsVui sps).vui_parameters.log2_max_mv_length_vertical = 16 ∧
       (fixSpsVui sps).vui_parameters.max_num_reorder_frames = 0 ∧
       (fixSpsVui sps).vui_parameters.max_dec_frame_buffering
         = sps.max_num_ref_frames ∧
       (fixSpsVui sps).vui_parameters.aspect_ratio_info_present_flag
         = sps.vui_parameters.aspect_ratio_info_present_flag ∧
       (fixSpsVui sps).vui_parameters.aspect_ratio_idc
         = sps.vui_parameters.aspect_ratio_idc ∧
       (fixSpsVui sps).vui_parameters.sar_width
         = sps.vui_parameters.sar_width ∧
       (fixSpsVui sps).vui_parameters.sar_height
         = sps.vui_parameters.sar_height ∧
       (fixSpsVui sps).vui_parameters.overscan_info_present_flag
         = sps.vui_parameters.overscan_info_present_flag ∧
       (fixSpsVui sps).vui_parameters.overscan_appropriate_flag
         = sps.vui_parameters.overscan_appropriate_flag ∧
       (fixSpsVui sps).vui_parameters.video_signal_type_present_flag
         = sps.vui_parameters.video_signal_type_present_flag ∧
       (fixSpsVui sps).vui_parameters.video_format
         = sps.vui_parameters.video_format ∧
       (fixSpsVui sps).vui_parameters.video_full_range_flag
         = sps.vui_parameters.video_full_range_flag ∧
       (fixSpsVui sps).vui_parameters.colour_description_present_flag
         = sps.vui_parameters.colour_description_present_flag ∧
       (fixSpsVui sps).vui_parameters.colour_primaries
         = sps.vui_parameters.colour_primaries ∧
       (fixSpsVui sps).vui_parameters.transfer_characteristics
         = sps.vui_parameters.transfer_characteristics ∧
       (fixSpsVui sps).vui_parameters.matrix_coefficients
         = sps.vui_parameters.matrix_coefficients ∧
       (fixSpsVui sps).vui_parameters.chroma_loc_info_present_flag
         = sps.vui_parameters.chroma_loc_info_present_flag ∧
       (fixSpsVui sps).vui_parameters.chroma_sample_loc_type_top_field
         = sps.vui_parameters.chroma_sample_loc_type_top_field ∧
       (fixSpsVui sps).vui_parameters.chroma_sample_loc_type_bottom_field
         = sps.vui_parameters.chroma_sample_loc_type_bottom_field ∧
       (fixSpsVui sps).vui_parameters.timing_info_present_flag
         = sps.vui_parameters.timing_info_present_flag ∧
       (fixSpsVui sps).vui_parameters.num_units_in_tick
         = sps.vui_parameters.num_units_in_tick ∧
       (fixSpsVui sps).vui_parameters.time_scale
         = sps.vui_parameters.time_scale ∧
       (fixSpsVui sps).vui_parameters.fixed_frame_rate_flag
         = sps.vui_parameters.fixed_frame_rate_flag ∧
       (fixSpsVui sps).vui_parameters.nal_hrd_parameters_present_flag
         = sps.vui_parameters.nal_hrd_parameters_present_flag ∧
       (fixSpsVui sps).vui_parameters.nal_hrd_parameters
         = sps.vui_parameters.nal_hrd_parameters ∧
       (fixSpsVui sps).vui_parameters.vcl_hrd_parameters_present_flag
         = sps.vui_parameters.vcl_hrd_parameters_present_flag ∧
       (fixSpsVui sps).vui_parameters.vcl_hrd_parameters
         = sps.vui_parameters.vcl_hrd_parameters ∧
       (fixSpsVui sps).vui_parameters.low_delay_hrd_flag
         = sps.vui_parameters.low_delay_hrd_flag ∧
       (fixSpsVui sps).vui_parameters.pic_struct_present_flag
         = sps.vui_parameters.pic_struct_present_flag ∧
       (fixSpsVui sps).profile_idc = sps.profile_idc ∧
       (fixSpsVui sps).constraint_set0_flag = sps.constraint_set0_flag ∧
       (fixSpsVui sps).constraint_set1_flag = sps.constraint_set1_flag ∧
       (fixSpsVui sps).constraint_set2_flag = sps.constraint_set2_flag ∧
       (fixSpsVui sps).constraint_set3_flag = sps.constraint_set3_flag ∧
       (fixSpsVui sps).constraint_set4_flag = sps.constraint_set4_flag ∧
       (fixSpsVui sps).constraint_set5_flag = sps.constraint_set5_flag ∧
       (fixSpsVui sps).level_idc = sps.level_idc ∧
       (fixSpsVui sps).seq_parameter_set_id = sps.seq_parameter_set_id ∧
       (fixSpsVui sps).chroma_format_idc = sps.chroma_format_idc ∧
       (fixSpsVui sps).separate_colour_plane_flag
         = sps.separate_colour_plane_flag ∧
       (fixSpsVui sps).bit_depth_luma_minus8 = sps.bit_depth_luma_minus8 ∧
       (fixSpsVui sps).bit_depth_chroma_minus8 = sps.bit_depth_chroma_minus8 ∧
       (fixSpsVui sps).qpprime_y_zero_transform_bypass_flag
         = sps.qpprime_y_zero_transform_bypass_flag ∧
       (fixSpsVui sps).seq_scaling_matrix_present_flag
         = sps.seq_scaling_matrix_present_flag ∧
       (fixSpsVui sps).scaling_lists_4x4 = sps.scaling_lists_4x4 ∧
       (fixSpsVui sps).scaling_lists_8x8 = sps.scaling_lists_8x8 ∧
       (fixSpsVui sps).log2_max_frame_num_minus4
         = sps.log2_max_frame_num_minus4 ∧
       (fixSpsVui sps).pic_order_cnt_type = sps.pic_order_cnt_type ∧
       (fixSpsVui sps).log2_max_pic_order_cnt_lsb_minus4
         = sps.log2_max_pic_order_cnt_lsb_minus4 ∧
       (fixSpsVui sps).delta_pic_order_always_zero_flag
         = sps.delta_pic_order_always_zero_flag ∧
       (fixSpsVui sps).offset_for_non_ref_pic = sps.offset_for_non_ref_pic ∧
       (fixSpsVui sps).offset_for_top_to_bottom_field
         = sps.offset_for_top_to_bottom_field ∧
       (fixSpsVui sps).num_ref_frames_in_pic_order_cnt_cycle
         = sps.num_ref_frames_in_pic_order_cnt_cycle ∧
       (fixSpsVui sps).offset_for_ref_frame = sps.offset_for_ref_frame ∧
       (fixSpsVui sps).max_num_ref_frames = sps.max_num_ref_frames ∧
       (fixSpsVui sps).gaps_in_frame_num_value_allowed_flag
         = sps.gaps_in_frame_num_value_allowed_flag ∧
       (fixSpsVui sps).pic_width_in_mbs_minus1 = sps.pic_width_in_mbs_minus1 ∧
       (fixSpsVui sps).pic_height_in_map_units_minus1
         = sps.pic_height_in_map_units_minus1 ∧
       (fixSpsVui sps).frame_mbs_only_flag = sps.frame_mbs_only_flag ∧
       (fixSpsVui sps).mb_adaptive_frame_field_flag
         = sps.mb_adaptive_frame_field_flag ∧
       (fixSpsVui sps).direct_8x8_inference_flag
         = sps.direct_8x8_inference_flag ∧
       (fixSpsVui sps).frame_cropping_flag = sps.frame_cropping_flag ∧
       (fixSpsVui sps).frame_crop_left_offset = sps.frame_crop_left_offset ∧
       (fixSpsVui sps).frame_crop_right_offset = sps.frame_crop_right_offset ∧
       (fixSpsVui sps).frame_crop_top_offset = sps.frame_crop_top_offset ∧
       (fixSpsVui sps).frame_crop_bottom_offset
         = sps.frame_crop_bottom_offset ∧
       (fixSpsVui sps).vui_parameters_present_flag
         = sps.vui_parameters_present_flag)) := by
  constructor <;> intro h <;> simp [fixSpsVui, h]

/-- Witness for C3 at the concrete SPS of spec scenario 4
(max_num_ref_frames = 3, restriction flag unset). -/
theorem sps_vui_fix_witness :
    (fixSpsVui spsEx).vui_parameters.bitstream_restriction_flag = true ∧
    (fixSpsVui spsEx).vui_parameters.max_num_reorder_frames = 0 ∧
    (fixSpsVui spsEx).vui_parameters.max_dec_frame_buffering = 3 :=
  have h := (sps_vui_fix spsEx).2 rfl
  ⟨h.1, h.2.2.2.2.2.2.1, (h.2.2.2.2.2.2.2.1).trans rfl⟩

/-! ### Claim C5 — heartbeat nonce mismatch -/

/-- Claim C5 (code bug evidence): with nonce 5 sent, an op-6 reply carrying 6
makes the heartbeat iteration terminate the task with the notifier NOT closed
(the source returns before the notifier.close() call); only the wake path
closes it.  The claim says a mismatch closes the notifier. -/
theorem heartbeat_mismatch_no_close :
    hbIter 5 (HBEvent.recv (some 6)) = HBStep.terminated false ∧
    hbIter 5 HBEvent.wake = HBStep.terminated true ∧
    hbIter 5 (HBEvent.recv (some 5)) = HBStep.continueLoop := by
  decide

/-! ### Claim C6 — publisher_active -/

/-- A some result of getElem? stays within the length. -/
theorem getElem?_lt_length {α : Type} {l : List α} {i : Nat} {a : α}
    (h : l[i]? = some a) : i < l.length := by
  by_contra hc
  rw [List.getElem?_eq_none (le_of_not_lt hc)] at h
  exact Option.noConfusion h

/-- The element appended at the end of a list, by position. -/
theorem getElem?_append_length {α : Type} (l : List α) (a : α) :
    (l ++ [a])[l.length]? = some a := by
  rw [List.getElem?_append_right (le_refl _)]
  simp

/-- whipActive over an appended command is one step on the prefix value. -/
theorem whipActive_append (l : List WhipCmd) (c : WhipCmd) :
    whipActive (l ++ [c]) = whipStep (whipActive l) c := by
  simp [whipActive, List.foldl_append]

/-- Appending a non-EndRequest command preserves an acceptance witness. -/
theorem activeWitness_append_keep (l : List WhipCmd) (c : WhipCmd)
    (hc : c ≠ WhipCmd.endRequest) (h : activeWitness l) :
    activeWitness (l ++ [c]) := by
  obtain ⟨i, ⟨hget, htake⟩, hafter⟩ := h
  have hi : i < l.length := getElem?_lt_length hget
  refine ⟨i, ⟨?_, ?_⟩, ?_⟩
  · rw [List.getElem?_append_left hi]
    exact hget
  · rw [List.take_append_eq_append_take, Nat.sub_eq_zero_of_le hi.le]
    simpa using htake
  · intro j hj
    rcases lt_trichotomy j l.length with h1 | h1 | h1
    · rw [List.getElem?_append_left h1]
      exact hafter j hj
    · subst h1
      rw [getElem?_append_length]
      simp only [ne_eq, Option.some.injEq]
      exact hc
    · rw [List.getElem?_eq_none (by simp; omega)]
      simp

/-- An accepted NewRequest appended after an inactive history is a witness. -/
theorem activeWitness_last (l : List WhipCmd) (h : whipActive l = false) :
    activeWitness (l ++ [WhipCmd.newRequest true]) := by
  refine ⟨l.length, ⟨?_, ?_⟩, ?_⟩
  · exact getElem?_append_length l _
  · rw [List.take_left]
    exact h
  · intro j hj
    rw [List.getElem?_eq_none (by simp; omega)]
    simp

/-- A witness over an appended command is either the appended accepted
NewRequest itself or a witness over the prefix. -/
theorem activeWitness_of_append (l : List WhipCmd) (c : WhipCmd)
    (h : activeWitness (l ++ [c])) :
    (c = WhipCmd.newRequest true ∧ whipActive l = false) ∨ activeWitness l := by
  obtain ⟨i, ⟨hget, htake⟩, hafter⟩ := h
  rcases Nat.lt_or_ge i l.length with h1 | h1
  · right
    refine ⟨i, ⟨?_, ?_⟩, ?_⟩
    · rw [List.getElem?_append_left h1] at hget
      exact hget
    · rw [List.take_append_eq_append_take, Nat.sub_eq_zero_of_le h1.le] at htake
      simpa using htake
    · intro j hj
      by_cases h2 : j < l.length
      · have h3 := hafter j hj
        rw [List.getElem?_append_left h2] at h3
        exact h3
      · rw [List.getElem?_eq_none (le_of_not_lt h2)]
        simp
  · have hb : i < l.length + 1 := by
      have := getElem?_lt_length hget
      simpa using this
    have h2 : i = l.length := by omega
    subst h2
    rw [getElem?_append_length] at hget
    rw [List.take_left] at htake
    exact Or.inl ⟨Option.some.inj hget, htake⟩

/-- A command that is neither EndRequest nor an acceptable NewRequest neither
creates nor destroys a witness. -/
theorem active_iff_append_neutral (l : List WhipCmd) (c : WhipCmd)
    (hc1 : c ≠ WhipCmd.endRequest) (hc2 : c ≠ WhipCmd.newRequest true)
    (ih : whipActive l = true ↔ activeWitness l) :
    (whipActive l = true ↔ activeWitness (l ++ [c])) := by
  constructor
  · intro h
    exact activeWitness_append_keep l c hc1 (ih.mp h)
  · intro hw
    rcases activeWitness_of_append l c hw with ⟨hc, _⟩ | hw2
    · exact absurd hc hc2
    · exact ih.mpr hw2

/-- Claim C6: publisher_active is true exactly when some NewRequest was
accepted (init succeeded while inactive) and no EndRequest has been processed
since; a failing NewRequest leaves the flag unchanged and a NewRequest while
active changes nothing. -/
theorem whip_publisher_active_iff (cmds : List WhipCmd) :
    (whipActive cmds = true ↔ activeWitness cmds) ∧
    (∀ a, whipStep a (WhipCmd.newRequest false) = a) ∧
    (∀ ok, whipStep true (WhipCmd.newRequest ok) = true) := by
  refine ⟨?_, fun a => by cases a <;> rfl, fun ok => rfl⟩
  induction cmds using List.reverseRecOn with
  | nil =>
    constructor
    · intro h
      exact absurd h (by decide)
    · rintro ⟨i, ⟨hget, _⟩, _⟩
      rw [List.getElem?_nil] at hget
      exact Option.noConfusion hget
  | append_singleton l c ih =>
    rw [whipActive_append]
    cases c with
    | newRequest ok =>
      cases hA : whipActive l with
      | true =>
        exact ⟨fun _ => activeWitness_append_keep l _ (by simp) (ih.mp hA),
          fun _ => rfl⟩
      | false =>
        cases ok with
        | true =>
          exact ⟨fun _ => activeWitness_last l hA, fun _ => rfl⟩
        | false =>
          constructor
          · intro hcontra
            exact absurd hcontra (by decide)
          · intro hw
            rcases activeWitness_of_append l _ hw with ⟨hc, _⟩ | hw2
            · exact absurd hc (by simp)
            · have h2 := ih.mpr hw2
              rw [hA] at h2
              exact absurd h2 (by decide)
    | endRequest =>
      constructor
      · intro hcontra
        have : whipStep (whipActive l) WhipCmd.endRequest = false := rfl
        rw [this] at hcontra
        exact absurd hcontra (by decide)
      · rintro ⟨i, ⟨hget, _⟩, hafter⟩
        have hb : i < l.length + 1 := by
          have := getElem?_lt_length hget
          simpa using this
        have hne : i ≠ l.length := by
          intro he
          subst he
          rw [getElem?_append_length] at hget
          simp at hget
        exact absurd (getElem?_append_length l _)
          (hafter l.length (by omega))
    | retrieveMirrors =>
      have hstep : whipStep (whipActive l) WhipCmd.retrieveMirrors
          = whipActive l := rfl
      rw [hstep]
      exact active_iff_append_neutral l _ (by simp) (by simp) ih
    | newMirror =>
      have hstep : whipStep (whipActive l) WhipCmd.newMirror
          = whipActive l := rfl
      rw [hstep]
      exact active_iff_append_neutral l _ (by simp) (by simp) ih
    | endMirror =>
      have hstep : whipStep (whipActive l) WhipCmd.endMirror
          = whipActive l := rfl
      rw [hstep]
      exact active_iff_append_neutral l _ (by simp) (by simp) ih

/-- Witness for C6: a single accepted NewRequest yields an acceptance
witness via the main equivalence. -/
theorem whip_publisher_active_iff_witness :
    activeWitness [WhipCmd.newRequest true] :=
  (whip_publisher_active_iff [WhipCmd.newRequest true]).1.mp rfl

/-- Claim C8: executing a pending transition removes the entry, installs the
staged version, marks a downgrade exactly when the version just became 0, and
otherwise on a nonzero transition id out of a downgrade clears the flag and
re-enables passthrough with a 10-packet grace window; the staged
tid 7 → 0 then tid 8 → 1 scenario ends at version 1, not downgraded. -/
theorem dave_execute_transition (st : DaveTransState) (tid newV : Nat)
    (h : lookupP st.pending tid = some newV) :
    ((executePendingTransition st tid).version = newV ∧
     (executePendingTransition st tid).pending = eraseK st.pending tid ∧
     lookupP (executePendingTransition st tid).pending tid = none ∧
     (st.version ≠ newV → newV = 0 →
       (executePendingTransition st tid).isDowngraded = true) ∧
     (¬(st.version ≠ newV ∧ newV = 0) → 0 < tid → st.isDowngraded = true →
       (executePendingTransition st tid).isDowngraded = false ∧
       (executePendingTransition st tid).passthrough = some (true, 10)) ∧
     (¬(st.version ≠ newV ∧ newV = 0) → ¬(0 < tid ∧ st.isDowngraded = true) →
       (executePendingTransition st tid).isDowngraded = st.isDowngraded ∧
       (executePendingTransition st tid).passthrough = st.passthrough)) ∧
    (executePendingTransition ⟨1, [(7, 0)], false, none⟩ 7
        = ⟨0, [], true, none⟩ ∧
     executePendingTransition ⟨0, insertK [] 8 1, true, none⟩ 8
        = ⟨1, [], false, some (true, 10)⟩) := by
  refine ⟨?_, by decide, by decide⟩
  simp only [executePendingTransition, h]
  split_ifs with h1 h2
  · exact ⟨rfl, rfl, lookupP_eraseK _ _, fun _ _ => rfl,
      fun hno _ _ => absurd h1 hno, fun hno _ => absurd h1 hno⟩
  · exact ⟨rfl, rfl, lookupP_eraseK _ _,
      fun hne h0 => absurd ⟨hne, h0⟩ h1, fun _ _ _ => ⟨rfl, rfl⟩,
      fun _ hno => absurd h2 hno⟩
  · exact ⟨rfl, rfl, lookupP_eraseK _ _,
      fun hne h0 => absurd ⟨hne, h0⟩ h1,
      fun _ htid hdg => absurd ⟨htid, hdg⟩ h2, fun _ _ => ⟨rfl, rfl⟩⟩

/-- Witness for C8 at the downgrade staging of spec scenario 6. -/
theorem dave_execute_transition_witness :
    (executePendingTransition ⟨1, [(7, 0)], false, none⟩ 7).version = 0 ∧
    (executePendingTransition ⟨1, [(7, 0)], false, none⟩ 7).isDowngraded
      = true :=
  have h := dave_execute_transition ⟨1, [(7, 0)], false, none⟩ 7 0 (by decide)
  ⟨h.1.1, h.1.2.2.2.1 (by decide) rfl⟩

/-! ### Claim C9 — is_partition_head / is_partition_tail -/

/-- Claim C9 counterexample: the single-byte payload [1] has NALU type 1
(neither FU-A nor FU-B), so the claim demands is_partition_head = true, but
the source returns false for every payload shorter than 2 bytes. -/
theorem is_partition_head_short_cx :
    isPartitionHead [1] = false ∧
    (1 : Nat) &&& 31 ≠ 28 ∧ (1 : Nat) &&& 31 ≠ 29 := by
  decide

/-- Claim C9 amended: for payloads of length at least 2, is_partition_head is
the FU start bit on FU-A/FU-B and true otherwise; payloads shorter than 2
bytes yield false; is_partition_tail is always the marker bit. -/
theorem is_partition_head_spec (p : List Nat) :
    (p.length < 2 → isPartitionHead p = false) ∧
    (2 ≤ p.length → p.getD 0 0 &&& 31 = 28 ∨ p.getD 0 0 &&& 31 = 29 →
      isPartitionHead p = decide (p.getD 1 0 &&& 128 ≠ 0)) ∧
    (2 ≤ p.length → p.getD 0 0 &&& 31 ≠ 28 → p.getD 0 0 &&& 31 ≠ 29 →
      isPartitionHead p = true) ∧
    (∀ m, isPartitionTail m p = m) := by
  refine ⟨fun h => ?_, fun h hfu => ?_, fun h h28 h29 => ?_, fun m => rfl⟩
  · unfold isPartitionHead
    rw [if_pos h]
  · unfold isPartitionHead
    rw [if_neg (by omega), if_pos hfu]
  · unfold isPartitionHead
    rw [if_neg (by omega), if_neg (not_or.mpr ⟨h28, h29⟩)]

/-- Witness for C9 at the FU-A start fragment of spec scenario 1
(bytes 0x7C 0x85). -/
theorem is_partition_head_spec_witness :
    isPartitionHead [124, 133] = decide ((133 : Nat) &&& 128 ≠ 0) :=
  (is_partition_head_spec [124, 133]).2.1 (by decide) (by decide)

/-! ### Claim C10 — totality of the NAL-unit boundary scan -/

/-- Claim C10 (code bug evidence): on a 2-byte sample the boundary scan's
usize subtraction data.len() - 3 underflows (none); from 3 bytes on the scan
is well defined (the 3-byte case runs zero iterations). -/
theorem video_scan_short_data_underflow :
    naluScan [0, 0] = none ∧ naluScan [] = none ∧
    (naluScan [0, 0, 0]).isSome = true ∧
    naluScan [0, 0, 0, 1, 5, 170, 187] = some [(0, 4)] := by
  refine ⟨by simp [naluScan], by simp [naluScan], ?_, ?_⟩ <;>
    simp [naluScan, naluScanLoop]

/-! ### Claim C4 — exp-Golomb and fixed-width round-trips -/

/-- Folding the bit accumulator from a is the value shifted plus bitsVal. -/
theorem bitsVal_go (bs : List Bool) (a : Nat) :
    bs.foldl (fun x b => 2 * x + b.toNat) a = a * 2 ^ bs.length + bitsVal bs := by
  induction bs generalizing a with
  | nil => simp [bitsVal]
  | cons b bs ih =>
    have hb : bitsVal (b :: bs) = b.toNat * 2 ^ bs.length + bitsVal bs := by
      have := ih (2 * 0 + b.toNat)
      simpa [bitsVal] using this
    simp only [List.foldl_cons]
    rw [ih (2 * a + b.toNat), hb]
    simp [List.length_cons, pow_succ]
    ring

/-- Value of a cons bit string. -/
theorem bitsVal_cons (b : Bool) (bs : List Bool) :
    bitsVal (b :: bs) = b.toNat * 2 ^ bs.length + bitsVal bs := by
  have := bitsVal_go bs b.toNat
  simpa [bitsVal] using this

/-- write_f emits exactly the requested number of bits. -/
theorem writeF_length (n v : Nat) : (writeF n v).length = n := by
  simp [writeF]

/-- write_f peels its most significant bit. -/
theorem writeF_succ (n v : Nat) :
    writeF (n + 1) v = v.testBit n :: writeF n v := by
  simp [writeF, List.range_succ]

/-- write_f of zero is a run of zero bits. -/
theorem writeF_zero_val (n : Nat) : writeF n 0 = List.replicate n false := by
  induction n with
  | zero => rfl
  | succ n ih =>
    rw [writeF_succ, ih, Nat.zero_testBit]
    rfl

/-- The value of the written bits is the value modulo 2 ^ width. -/
theorem bitsVal_writeF (n v : Nat) : bitsVal (writeF n v) = v % 2 ^ n := by
  induction n with
  | zero => simp [writeF, bitsVal, Nat.mod_one]
  | succ n ih =>
    rw [writeF_succ, bitsVal_cons, writeF_length, ih]
    have h1 : v % 2 ^ (n + 1) = v % 2 ^ n + 2 ^ n * (v / 2 ^ n % 2) := by
      rw [pow_succ, Nat.mod_mul]
    rw [h1, Nat.testBit_to_div_mod]
    rcases Nat.mod_two_eq_zero_or_one (v / 2 ^ n) with h | h
    · simp [h]
    · simp [h]
      ring

/-- read_bits after write_f of the same width recovers the value mod 2^n. -/
theorem readBits_writeF (n v : Nat) (rest : List Bool) (hn : n ≤ 31) :
    readBits n (writeF n v ++ rest) = some (v % 2 ^ n, rest) := by
  unfold readBits
  rw [if_neg (by omega)]
  rw [if_neg (by rw [List.length_append, writeF_length]; omega)]
  rw [List.take_left' (writeF_length n v), List.drop_left' (writeF_length n v),
    bitsVal_writeF]

/-- The zero-counting loop over a zero run of length at most 31. -/
theorem ueZeros_replicate (k : Nat) (rest : List Bool) (j : Nat)
    (h : j + k ≤ 31) :
    ueZeros (List.replicate k false ++ true :: rest) j = some (j + k, rest) := by
  induction k generalizing j with
  | zero => simp [ueZeros]
  | succ k ih =>
    rw [List.replicate_succ, List.cons_append]
    show (if 31 < j + 1 then none
      else ueZeros (List.replicate k false ++ true :: rest) (j + 1))
        = some (j + k + 1, rest)
    rw [if_neg (by omega), ih (j + 1) (by omega)]
    have he : j + 1 + k = j + k + 1 := by omega
    rw [he]

/-- Unsigned exp-Golomb round-trip: write_ue then read_ue recovers any value
below u32::MAX, leaving the remaining stream untouched. -/
theorem readUe_writeUe (v : Nat) (rest : List Bool) (hv : v + 1 < 2 ^ 32) :
    ∃ bs, writeUe v = some bs ∧ readUe (bs ++ rest) = some (v, rest) := by
  have hv1 : v + 1 ≠ 0 := by omega
  have hlow : 2 ^ Nat.log 2 (v + 1) ≤ v + 1 := Nat.pow_log_le_self 2 hv1
  have hhigh : v + 1 < 2 ^ (Nat.log 2 (v + 1) + 1) :=
    Nat.lt_pow_succ_log_self (by norm_num) _
  have hk31 : Nat.log 2 (v + 1) ≤ 31 := by
    have := (Nat.lt_pow_iff_log_lt (by norm_num) hv1).mp hv
    omega
  have hpow : 2 ^ (Nat.log 2 (v + 1) + 1) = 2 * 2 ^ Nat.log 2 (v + 1) := by
    ring
  refine ⟨writeF (Nat.log 2 (v + 1)) 0 ++ writeF (Nat.log 2 (v + 1) + 1) (v + 1),
    ?_, ?_⟩
  · unfold writeUe writeExpGolumb
    rw [if_neg (by omega)]
    simp
  · have htb : (v + 1).testBit (Nat.log 2 (v + 1)) = true := by
      rw [Nat.testBit_to_div_mod]
      have hdiv : (v + 1) / 2 ^ Nat.log 2 (v + 1) = 1 := by
        refine Nat.div_eq_of_lt_le (by simpa using hlow) (by omega)
      simp [hdiv]
    have hsplit :
        (writeF (Nat.log 2 (v + 1)) 0
          ++ writeF (Nat.log 2 (v + 1) + 1) (v + 1)) ++ rest
          = List.replicate (Nat.log 2 (v + 1)) false
              ++ (true :: (writeF (Nat.log 2 (v + 1)) (v + 1) ++ rest)) := by
      rw [writeF_zero_val, writeF_succ, htb]
      simp
    rw [hsplit]
    unfold readUe
    rw [ueZeros_replicate _ _ 0 (by omega)]
    have hmod : (v + 1) % 2 ^ Nat.log 2 (v + 1)
        = v + 1 - 2 ^ Nat.log 2 (v + 1) := by
      rw [Nat.mod_eq_sub_mod hlow]
      exact Nat.mod_eq_of_lt (by omega)
    simp only [Nat.zero_add, Option.bind_eq_bind, Option.some_bind,
      readBits_writeF _ _ _ hk31, hmod]
    rw [if_neg (by omega)]
    have hval : 2 ^ Nat.log 2 (v + 1) - 1 + (v + 1 - 2 ^ Nat.log 2 (v + 1))
        = v := by omega
    rw [hval]

/-- Signed exp-Golomb round-trip on the range where the u32-to-i32 cast in
read_se cannot wrap. -/
theorem readSe_writeSe (v : Int) (rest : List Bool)
    (h1 : -(2 ^ 30 - 1) ≤ v) (h2 : v ≤ 2 ^ 30) :
    ∃ bs, writeSe v = some bs ∧ readSe (bs ++ rest) = some (v, rest) := by
  by_cases hv : v ≤ 0
  · have haa : (v.natAbs : Int) = -v := Int.ofNat_natAbs_of_nonpos hv
    have hab : v.natAbs ≤ 2 ^ 30 - 1 := by
      have hz : (v.natAbs : Int) ≤ ((2 ^ 30 - 1 : Nat) : Int) := by
        rw [haa]
        push_cast
        omega
      exact_mod_cast hz
    have hue : 2 * v.natAbs % 2 ^ 32 = 2 * v.natAbs :=
      Nat.mod_eq_of_lt (by omega)
    obtain ⟨bs, hw, hr⟩ := readUe_writeUe (2 * v.natAbs) rest (by omega)
    refine ⟨bs, ?_, ?_⟩
    · unfold writeSe
      rw [if_pos hv, hue]
      exact hw
    · unfold readSe
      rw [hr]
      simp only [Option.bind_eq_bind, Option.some_bind]
      rw [if_pos (by omega)]
      unfold u32ToI32
      rw [if_pos (by push_cast; omega)]
      have hcast : ((2 * v.natAbs : Nat) : Int) = 2 * (v.natAbs : Int) := by
        push_cast; ring
      rw [hcast, Int.mul_tdiv_cancel_left _ (by norm_num), haa]
      simp
  · push_neg at hv
    have haa : (v.natAbs : Int) = v := Int.natAbs_of_nonneg hv.le
    have h1a : 1 ≤ v.natAbs := by
      have : v.natAbs ≠ 0 := by
        simpa [Int.natAbs_eq_zero] using (ne_of_gt hv)
      omega
    have hab : v.natAbs ≤ 2 ^ 30 := by
      have hz : (v.natAbs : Int) ≤ (2 : Int) ^ 30 := by rw [haa]; omega
      exact_mod_cast hz
    obtain ⟨bs, hw, hr⟩ := readUe_writeUe (2 * v.natAbs - 1) rest (by omega)
    refine ⟨bs, ?_, ?_⟩
    · unfold writeSe
      rw [if_neg (by omega)]
      exact hw
    · unfold readSe
      rw [hr]
      simp only [Option.bind_eq_bind, Option.some_bind]
      rw [if_neg (by omega)]
      unfold u32ToI32
      rw [if_pos (by push_cast; omega)]
      have hdiv : ((2 * v.natAbs - 1 : Nat) : Int).tdiv (2 : Int)
          = (((2 * v.natAbs - 1) / 2 : Nat) : Int) := rfl
      rw [hdiv]
      have hnat : (2 * v.natAbs - 1) / 2 = v.natAbs - 1 := by omega
      rw [hnat]
      have hfin : (((v.natAbs - 1 : Nat)) : Int) + 1 = v := by
        rw [Nat.cast_sub h1a, haa]
        ring
      rw [hfin]

/-- Claim C4 counterexample: write_se of -2^30 maps to the unsigned code
2^31, whose u32-to-i32 cast in read_se is negative, so the round-trip returns
+2^30 instead of -2^30. -/
theorem bitstream_roundtrip_cx :
    (writeSe (-(2 ^ 30))).bind readSe = some ((2 ^ 30 : Int), []) ∧
    (2 ^ 30 : Int) ≠ -(2 ^ 30) := by
  constructor
  · obtain ⟨bs, hw, hr⟩ := readUe_writeUe (2 ^ 31) [] (by norm_num)
    have hw2 : writeSe (-(2 ^ 30)) = some bs := by
      unfold writeSe
      rw [if_pos (by norm_num)]
      have habs : (2 * (-(2 ^ 30) : Int).natAbs) % 2 ^ 32 = 2 ^ 31 := by
        decide
      rw [habs]
      exact hw
    rw [hw2]
    have hr2 : readUe bs = some (2 ^ 31, []) := by simpa using hr
    simp only [Option.bind_eq_bind, Option.some_bind]
    unfold readSe
    rw [hr2]
    simp only [Option.bind_eq_bind, Option.some_bind]
    rw [if_pos (by norm_num)]
    have hcast : u32ToI32 (2 ^ 31) = -(2 ^ 31) := by
      unfold u32ToI32
      rw [if_neg (by norm_num)]
      norm_num
    rw [hcast]
    have htd : (-(2 ^ 31) : Int).tdiv 2 = -(2 ^ 30) := by decide
    rw [htd, neg_neg]
  · decide

/-- Claim C4 amended: sequences of unsigned exp-Golomb values below u32::MAX
round-trip exactly; sequences of signed values round-trip exactly on
-(2^30 - 1) ≤ v ≤ 2^30 (outside, the u32 doubling in write_se or the
u32-to-i32 cast in read_se wraps); fixed-width sequences round-trip for
widths up to 31 (read_bits rejects 32) and values below 2^width. -/
theorem bitstream_roundtrip_amended :
    (∀ (vs : List Nat) (rest : List Bool), (∀ v ∈ vs, v + 1 < 2 ^ 32) →
      ∃ bs, writeUeSeq vs = some bs ∧
        readUeSeq vs.length (bs ++ rest) = some (vs, rest)) ∧
    (∀ (vs : List Int) (rest : List Bool),
      (∀ v ∈ vs, -(2 ^ 30 - 1) ≤ v ∧ v ≤ 2 ^ 30) →
      ∃ bs, writeSeSeq vs = some bs ∧
        readSeSeq vs.length (bs ++ rest) = some (vs, rest)) ∧
    (∀ (ws : List (Nat × Nat)) (rest : List Bool),
      (∀ w ∈ ws, w.1 ≤ 31 ∧ w.2 < 2 ^ w.1) →
      readFSeq (ws.map Prod.fst) (writeFSeq ws ++ rest)
        = some (ws.map Prod.snd, rest)) := by
  refine ⟨?_, ?_, ?_⟩
  · intro vs
    induction vs with
    | nil => intro rest _; exact ⟨[], rfl, by simp [readUeSeq]⟩
    | cons v vs ih =>
      intro rest hall
      obtain ⟨bs2, hw2, hr2⟩ := ih rest (fun x hx => hall x (by simp [hx]))
      obtain ⟨bs1, hw1, hr1⟩ :=
        readUe_writeUe v (bs2 ++ rest) (hall v (by simp))
      refine ⟨bs1 ++ bs2, ?_, ?_⟩
      · simp [writeUeSeq, hw1, hw2]
      · simp [readUeSeq, List.append_assoc, hr1, hr2]
  · intro vs
    induction vs with
    | nil => intro rest _; exact ⟨[], rfl, by simp [readSeSeq]⟩
    | cons v vs ih =>
      intro rest hall
      obtain ⟨bs2, hw2, hr2⟩ := ih rest (fun x hx => hall x (by simp [hx]))
      obtain ⟨bs1, hw1, hr1⟩ :=
        readSe_writeSe v (bs2 ++ rest) (hall v (by simp)).1 (hall v (by simp)).2
      refine ⟨bs1 ++ bs2, ?_, ?_⟩
      · simp [writeSeSeq, hw1, hw2]
      · simp [readSeSeq, List.append_assoc, hr1, hr2]
  · intro ws
    induction ws with
    | nil => intro rest _; simp [writeFSeq, readFSeq]
    | cons w ws ih =>
      intro rest hall
      have hr2 := ih rest (fun x hx => hall x (by simp [hx]))
      have hw1 := (hall w (by simp)).1
      have hv1 := (hall w (by simp)).2
      have hr1 := readBits_writeF w.1 w.2 (writeFSeq ws ++ rest) hw1
      rw [Nat.mod_eq_of_lt hv1] at hr1
      simp [writeFSeq, readFSeq, List.append_assoc, hr1, hr2]

/-! ### Claim C2 — sample builder on in-order flag-delimited streams -/

/-- Group packets have the group timestamp. -/
theorem pgPackets_ts (t : Nat) :
    ∀ (s0 : Nat) (ps : List (List Nat × Bool)),
      ∀ pk ∈ pgPackets t s0 ps, pk.header.timestamp = t := by
  intro s0 ps
  induction ps generalizing s0 with
  | nil => intro pk h; exact absurd h (List.not_mem_nil pk)
  | cons p ps ih =>
    intro pk h
    rcases List.mem_cons.mp h with rfl | h2
    · rfl
    · exact ih (s0 + 1) pk h2

/-- Group packets carry the payloads and markers of the group, in order. -/
theorem pgPackets_mem (t : Nat) :
    ∀ (s0 : Nat) (ps : List (List Nat × Bool)),
      ∀ pk ∈ pgPackets t s0 ps,
        ∃ p ∈ ps, pk.payload = p.1 ∧ pk.header.marker = p.2 := by
  intro s0 ps
  induction ps generalizing s0 with
  | nil => intro pk h; exact absurd h (List.not_mem_nil pk)
  | cons p ps ih =>
    intro pk h
    rcases List.mem_cons.mp h with rfl | h2
    · exact ⟨p, by simp, rfl, rfl⟩
    · obtain ⟨p2, hp2, h3, h4⟩ := ih (s0 + 1) pk h2
      exact ⟨p2, by simp [hp2], h3, h4⟩

/-- Length of a packet group. -/
theorem pgPackets_length (t : Nat) :
    ∀ (s0 : Nat) (ps : List (List Nat × Bool)),
      (pgPackets t s0 ps).length = ps.length := by
  intro s0 ps
  induction ps generalizing s0 with
  | nil => rfl
  | cons p ps ih => simp [pgPackets, ih]

/-- Sequence numbers of a packet group are consecutive from s0. -/
theorem pgPackets_seqs (t : Nat) :
    ∀ (s0 : Nat) (ps : List (List Nat × Bool)),
      (pgPackets t s0 ps).map (fun pk => pk.header.sequenceNumber)
        = List.range' s0 ps.length := by
  intro s0 ps
  induction ps generalizing s0 with
  | nil => rfl
  | cons p ps ih => simp [pgPackets, List.range', ih]

/-- Payloads of a packet group. -/
theorem pgPackets_payloads (t : Nat) :
    ∀ (s0 : Nat) (ps : List (List Nat × Bool)),
      (pgPackets t s0 ps).map (fun pk => pk.payload) = ps.map Prod.fst := by
  intro s0 ps
  induction ps generalizing s0 with
  | nil => rfl
  | cons p ps ih => simp [pgPackets, ih]

/-- Dropping the last packet of a group is the group of the shorter list. -/
theorem pgPackets_dropLast (t : Nat) :
    ∀ (s0 : Nat) (ps : List (List Nat × Bool)),
      (pgPackets t s0 ps).dropLast = pgPackets t s0 ps.dropLast := by
  intro s0 ps
  induction ps generalizing s0 with
  | nil => rfl
  | cons p ps ih =>
    cases ps with
    | nil => rfl
    | cons p2 ps2 =>
      have hih := ih (s0 + 1)
      show (⟨⟨s0, t, p.2⟩, p.1⟩ :: pgPackets t (s0 + 1) (p2 :: ps2)).dropLast
          = pgPackets t s0 (p :: (p2 :: ps2).dropLast)
      rw [show pgPackets t (s0 + 1) (p2 :: ps2)
          = ⟨⟨s0 + 1, t, p2.2⟩, p2.1⟩ :: pgPackets t (s0 + 1 + 1) ps2 from rfl,
        List.dropLast_cons₂]
      show _ = ⟨⟨s0, t, p.2⟩, p.1⟩ :: pgPackets t (s0 + 1) ((p2 :: ps2).dropLast)
      rw [← hih]
      rfl

/-- The last packet of a group carries the last payload and marker. -/
theorem pgPackets_getLast (t : Nat) :
    ∀ (s0 : Nat) (ps : List (List Nat × Bool)) (pl : List Nat × Bool),
      ps.getLast? = some pl →
      ∃ pk, (pgPackets t s0 ps).getLast? = some pk ∧
        pk.payload = pl.1 ∧ pk.header.marker = pl.2 := by
  intro s0 ps
  induction ps generalizing s0 with
  | nil => intro pl h; exact absurd h (by simp)
  | cons p ps ih =>
    intro pl h
    cases ps with
    | nil =>
      refine ⟨⟨⟨s0, t, p.2⟩, p.1⟩, rfl, ?_, ?_⟩ <;> simp_all
    | cons p2 ps2 =>
      rw [List.getLast?_cons_cons] at h
      obtain ⟨pk, h1, h2, h3⟩ := ih (s0 + 1) pl h
      refine ⟨pk, ?_, h2, h3⟩
      show (⟨⟨s0, t, p.2⟩, p.1⟩ :: pgPackets t (s0 + 1) (p2 :: ps2)).getLast?
          = some pk
      rw [show pgPackets t (s0 + 1) (p2 :: ps2)
          = ⟨⟨s0 + 1, t, p2.2⟩, p2.1⟩ :: pgPackets t (s0 + 1 + 1) ps2 from rfl,
        List.getLast?_cons_cons]
      exact h1

/-- Depacketizing entries is depacketizing their payloads. -/
theorem depackFold_eq_payloads (d : Depack S) (d0 : S) :
    ∀ (pks : List RtpPacket) (st : S),
      depackFold d st (pks.map (toEntry d d0))
        = depackPayloads d st (pks.map (fun pk => pk.payload)) := by
  intro pks
  induction pks with
  | nil => intro st; rfl
  | cons p pks ih =>
    intro st
    simp only [List.map_cons, depackFold, depackPayloads, toEntry]
    cases hr : (d.depacketize st p.payload).2 with
    | none => rfl
    | some bytes => rw [ih]

/-- A depacketizer that never fails makes depackFold never fail. -/
theorem depackFold_isSome (d : Depack S)
    (hdep : ∀ st p, ((d.depacketize st p).2).isSome = true) :
    ∀ (es : List Entry) (st : S),
      ((depackFold d st es).2).isSome = true := by
  intro es
  induction es with
  | nil => intro st; rfl
  | cons e es ih =>
    intro st
    simp only [depackFold]
    cases hr : (d.depacketize st e.payload).2 with
    | none =>
      have := hdep st e.payload
      rw [hr] at this
      exact absurd this (by simp)
    | some bytes =>
      have h2 := ih (d.depacketize st e.payload).1
      rcases hfold : depackFold d (d.depacketize st e.payload).1 es with ⟨st2, r2⟩
      rw [hfold] at h2
      cases r2 with
      | none => exact absurd h2 (by simp)
      | some bs => simp

/-- The entries of the packet stream, grouped. -/
theorem packetsOf_entries (d : Depack S) (d0 : S) :
    ∀ (pgs : List (Nat × List (List Nat × Bool))) (seq0 : Nat),
      (packetsOf seq0 pgs).map (toEntry d d0)
        = (groupsOf d d0 seq0 pgs).flatten := by
  intro pgs
  induction pgs with
  | nil => intro seq0; rfl
  | cons g pgs ih =>
    intro seq0
    obtain ⟨t, ps⟩ := g
    simp only [packetsOf, groupsOf, List.map_append, List.flatten_cons, ih]

/-- Sequence numbers of the whole packet stream are consecutive from seq0. -/
theorem packetsOf_seqs :
    ∀ (pgs : List (Nat × List (List Nat × Bool))) (seq0 : Nat),
      (packetsOf seq0 pgs).map (fun pk => pk.header.sequenceNumber)
        = List.range' seq0 (packetsOf seq0 pgs).length := by
  intro pgs
  induction pgs with
  | nil => intro seq0; rfl
  | cons g pgs ih =>
    intro seq0
    obtain ⟨t, ps⟩ := g
    simp only [packetsOf, List.map_append, List.length_append,
      pgPackets_seqs, pgPackets_length, ih]
    have := List.range'_append seq0 ps.length (packetsOf (seq0 + ps.length) pgs).length 1
    simp only [one_mul, Nat.mul_one] at this
    rw [this]
    congr 1
    omega

/-- The groups of the stream carry consecutive sequence numbers. -/
theorem groupsOf_consec (d : Depack S) (d0 : S) :
    ∀ (pgs : List (Nat × List (List Nat × Bool))) (seq0 : Nat),
      ConsecFrom seq0 (groupsOf d d0 seq0 pgs) := by
  intro pgs
  induction pgs with
  | nil => intro seq0; trivial
  | cons g pgs ih =>
    intro seq0
    obtain ⟨t, ps⟩ := g
    refine ⟨?_, ?_⟩
    · have h1 : ((pgPackets t seq0 ps).map (toEntry d d0)).map
          (fun e => e.header.sequenceNumber)
          = (pgPackets t seq0 ps).map (fun pk => pk.header.sequenceNumber) := by
        rw [List.map_map]
        rfl
      rw [h1, pgPackets_seqs]
      congr 1
      simp [pgPackets_length]
    · have h2 : ((pgPackets t seq0 ps).map (toEntry d d0)).length = ps.length := by
        simp [pgPackets_length]
      rw [h2]
      exact ih (seq0 + ps.length)

/-- Timestamp of a nonempty stream group. -/
theorem tsOfGroup_pg (d : Depack S) (d0 : S) (t seq0 : Nat)
    (ps : List (List Nat × Bool)) (hne : ps ≠ []) :
    tsOfGroup ((pgPackets t seq0 ps).map (toEntry d d0)) = t := by
  cases ps with
  | nil => exact absurd rfl hne
  | cons p ps => rfl

/-- The stream groups are well formed under the head/tail hypotheses. -/
theorem groupsOf_wf (d : Depack S) (d0 : S) :
    ∀ (pgs : List (Nat × List (List Nat × Bool))) (seq0 : Nat),
      (∀ g ∈ pgs, g.2 ≠ []) →
      (∀ g ∈ pgs, ∀ p0, g.2.head? = some p0 → d.isHead d0 p0.1 = true) →
      (∀ g ∈ pgs, ∀ pl, g.2.getLast? = some pl → d.isTail d0 pl.2 pl.1 = true) →
      (∀ g ∈ pgs, ∀ p ∈ g.2.dropLast, d.isTail d0 p.2 p.1 = false) →
      ∀ gg ∈ groupsOf d d0 seq0 pgs, GroupWF gg := by
  intro pgs
  induction pgs with
  | nil =>
    intro seq0 _ _ _ _ gg hgg
    exact absurd hgg (List.not_mem_nil gg)
  | cons g pgs ih =>
    intro seq0 hne hhead htail hinner gg hgg
    obtain ⟨t, ps⟩ := g
    rcases List.mem_cons.mp hgg with rfl | hgg2
    · have hpsne : ps ≠ [] := hne (t, ps) (by simp)
      refine ⟨?_, ?_, ?_, ?_, ?_⟩
      · cases ps with
        | nil => exact absurd rfl hpsne
        | cons p ps => simp [pgPackets]
      · intro e0 he0
        cases ps with
        | nil => exact absurd rfl hpsne
        | cons p ps =>
          simp only [pgPackets, List.map_cons, List.head?_cons,
            Option.some.injEq] at he0
          subst he0
          exact hhead (t, p :: ps) (by simp) p rfl
      · intro el hel
        have hlast : ∃ pl, ps.getLast? = some pl := by
          cases hx : ps.getLast? with
          | none =>
            rw [List.getLast?_eq_none_iff] at hx
            exact absurd hx hpsne
          | some pl => exact ⟨pl, rfl⟩
        obtain ⟨pl, hpl⟩ := hlast
        obtain ⟨pk, hpk, hpay, hmark⟩ := pgPackets_getLast t seq0 ps pl hpl
        rw [List.getLast?_map, hpk] at hel
        simp only [Option.map_some', Option.map_some, Option.some.injEq] at hel
        subst hel
        show d.isTail d0 pk.header.marker pk.payload = true
        rw [hpay, hmark]
        exact htail (t, ps) (by simp) pl hpl
      · intro e he
        rw [← List.map_dropLast, pgPackets_dropLast] at he
        obtain ⟨pk, hpk, rfl⟩ := List.mem_map.mp he
        obtain ⟨p, hp, hpay, hmark⟩ := pgPackets_mem t seq0 ps.dropLast pk hpk
        show d.isTail d0 pk.header.marker pk.payload = false
        rw [hpay, hmark]
        exact hinner (t, ps) (by simp) p hp
      · intro e he
        obtain ⟨pk, hpk, rfl⟩ := List.mem_map.mp he
        have ht := pgPackets_ts t seq0 ps pk hpk
        show pk.header.timestamp = _
        rw [ht, tsOfGroup_pg d d0 t seq0 ps hpsne]
    · exact ih (seq0 + ps.length) (fun x hx => hne x (by simp [hx]))
        (fun x hx => hhead x (by simp [hx]))
        (fun x hx => htail x (by simp [hx]))
        (fun x hx => hinner x (by simp [hx])) gg hgg2

/-- The group summaries of the stream agree with the payload-level ones. -/
theorem groupInfos_eq_infosOf (d : Depack S) (d0 : S) :
    ∀ (pgs : List (Nat × List (List Nat × Bool))) (seq0 : Nat) (st : S),
      (∀ g ∈ pgs, g.2 ≠ []) →
      groupInfos d st (groupsOf d d0 seq0 pgs) = infosOf d st pgs := by
  intro pgs
  induction pgs with
  | nil => intro seq0 st _; rfl
  | cons g pgs ih =>
    intro seq0 st hne
    obtain ⟨t, ps⟩ := g
    simp only [groupsOf, groupInfos, infosOf]
    rw [tsOfGroup_pg d d0 t seq0 ps (hne (t, ps) (by simp))]
    rw [depackFold_eq_payloads d d0 (pgPackets t seq0 ps) st, pgPackets_payloads]
    rw [ih (seq0 + ps.length) _ (fun x hx => hne x (by simp [hx]))]

/-- Timestamps of the stream summaries are the group timestamps. -/
theorem infosOf_ts (d : Depack S) :
    ∀ (pgs : List (Nat × List (List Nat × Bool))) (st : S),
      (infosOf d st pgs).map Prod.fst = pgs.map Prod.fst := by
  intro pgs
  induction pgs with
  | nil => intro st; rfl
  | cons g pgs ih =>
    intro st
    obtain ⟨t, ps⟩ := g
    simp only [infosOf, List.map_cons, ih]

/-- One scan step on a tracked run: matching sequence and timestamp, not a
tail, keeps the tracked start. -/
theorem segScan_step_keep (e : Entry) (rest : List Entry) (i : Nat)
    (st : SegStart) (segs : List (Nat × Nat))
    (hexp : st.offset + (i : Int) = (e.header.sequenceNumber : Int))
    (hsame : st.time = e.header.timestamp)
    (htail : e.tail = false) :
    segScan (e :: rest) i (some st) segs
      = segScan rest (i + 1) (some st) segs := by
  simp only [segScan]
  simp [hexp, hsame, htail]

/-- One scan step on a tracked run: matching sequence and timestamp, an
explicit tail, emits the segment and clears the start. -/
theorem segScan_step_emit (e : Entry) (rest : List Entry) (i : Nat)
    (st : SegStart) (segs : List (Nat × Nat))
    (hexp : st.offset + (i : Int) = (e.header.sequenceNumber : Int))
    (hsame : st.time = e.header.timestamp)
    (htail : e.tail = true) :
    segScan (e :: rest) i (some st) segs
      = segScan rest (i + 1) none (segs ++ [(st.index, i)]) := by
  simp only [segScan]
  simp [hexp, hsame, htail]

/-- One scan step with no tracked start: a head entry that is not a tail
starts tracking. -/
theorem segScan_step_start_keep (e : Entry) (rest : List Entry) (i : Nat)
    (segs : List (Nat × Nat)) (hh : e.head = true) (htail : e.tail = false) :
    segScan (e :: rest) i none segs
      = segScan rest (i + 1)
          (some ⟨i, e.header.timestamp,
            (e.header.sequenceNumber : Int) - (i : Int)⟩) segs := by
  simp only [segScan]
  simp [hh, htail]

/-- One scan step with no tracked start: a head entry that is also a tail is
a one-entry segment. -/
theorem segScan_step_start_emit (e : Entry) (rest : List Entry) (i : Nat)
    (segs : List (Nat × Nat)) (hh : e.head = true) (htail : e.tail = true) :
    segScan (e :: rest) i none segs
      = segScan rest (i + 1) none (segs ++ [(i, i)]) := by
  simp only [segScan]
  simp [hh, htail]

/-- The scan consumes a tracked run with matching sequence numbers and
timestamps, emitting one segment at its tail entry. -/
theorem segScan_run :
    ∀ (es rest : List Entry) (st : SegStart) (acc : List (Nat × Nat))
      (i q : Nat),
      st.offset + (i : Int) = (q : Int) →
      es.map (fun e => e.header.sequenceNumber) = List.range' q es.length →
      (∀ e ∈ es, e.header.timestamp = st.time) →
      (∀ e ∈ es.dropLast, e.tail = false) →
      (∀ el, es.getLast? = some el → el.tail = true) →
      es ≠ [] →
      segScan (es ++ rest) i (some st) acc
        = segScan rest (i + es.length) none
            (acc ++ [(st.index, i + es.length - 1)]) := by
  intro es
  induction es with
  | nil =>
    intro rest st acc i q _ _ _ _ _ hne
    exact absurd rfl hne
  | cons e es ih =>
    intro rest st acc i q hoff hseq hts hinner hlast _
    have hseq2 : e.header.sequenceNumber = q ∧
        es.map (fun e => e.header.sequenceNumber)
          = List.range' (q + 1) es.length := by
      rw [show List.range' q (e :: es).length
          = q :: List.range' (q + 1) es.length from rfl] at hseq
      exact ⟨(List.cons.inj hseq).1, (List.cons.inj hseq).2⟩
    have hexp : st.offset + (i : Int) = (e.header.sequenceNumber : Int) := by
      rw [hseq2.1]
      exact hoff
    have hsame : st.time = e.header.timestamp := (hts e (by simp)).symm
    cases es with
    | nil =>
      have htail : e.tail = true := hlast e rfl
      show segScan (e :: rest) i (some st) acc
          = segScan rest (i + 1) none (acc ++ [(st.index, i + 1 - 1)])
      rw [segScan_step_emit e rest i st acc hexp hsame htail]
      norm_num
    | cons e2 es2 =>
      have htailf : e.tail = false := hinner e (by simp [List.dropLast_cons₂])
      show segScan (e :: ((e2 :: es2) ++ rest)) i (some st) acc = _
      rw [segScan_step_keep e ((e2 :: es2) ++ rest) i st acc hexp hsame htailf]
      have hrec := ih rest st acc (i + 1) (q + 1)
        (by push_cast at hoff ⊢; omega) hseq2.2
        (fun x hx => hts x (by simp [hx]))
        (fun x hx => hinner x (by
          simp only [List.dropLast_cons₂, List.mem_cons]
          exact Or.inr hx))
        (fun x hx => hlast x (by rw [List.getLast?_cons_cons]; exact hx))
        (by simp)
      have harith : (i + 1) + (e2 :: es2).length
          = i + (e :: e2 :: es2).length := by
        simp only [List.length_cons]
        omega
      rw [harith] at hrec
      exact hrec

/-- The scan enters a well-formed group with no tracked start and emits
exactly its boundary pair. -/
theorem segScan_group (g rest : List Entry) (acc : List (Nat × Nat))
    (i0 q : Nat) (hwf : GroupWF g)
    (hseq : g.map (fun e => e.header.sequenceNumber)
      = List.range' q g.length) :
    segScan (g ++ rest) i0 none acc
      = segScan rest (i0 + g.length) none
          (acc ++ [(i0, i0 + g.length - 1)]) := by
  obtain ⟨hne, hhead, hlast, hinner, hts⟩ := hwf
  cases g with
  | nil => exact absurd rfl hne
  | cons e es =>
    have hh : e.head = true := hhead e rfl
    have hseq2 : e.header.sequenceNumber = q ∧
        es.map (fun e => e.header.sequenceNumber)
          = List.range' (q + 1) es.length := by
      rw [show List.range' q (e :: es).length
          = q :: List.range' (q + 1) es.length from rfl] at hseq
      exact ⟨(List.cons.inj hseq).1, (List.cons.inj hseq).2⟩
    cases es with
    | nil =>
      have htail : e.tail = true := hlast e rfl
      show segScan (e :: rest) i0 none acc
          = segScan rest (i0 + 1) none (acc ++ [(i0, i0 + 1 - 1)])
      rw [segScan_step_start_emit e rest i0 acc hh htail]
      norm_num
    | cons e2 es2 =>
      have htailf : e.tail = false := hinner e (by simp [List.dropLast_cons₂])
      show segScan (e :: ((e2 :: es2) ++ rest)) i0 none acc = _
      rw [segScan_step_start_keep e ((e2 :: es2) ++ rest) i0 acc hh htailf]
      have hrec := segScan_run (e2 :: es2) rest
        ⟨i0, e.header.timestamp,
          (e.header.sequenceNumber : Int) - (i0 : Int)⟩ acc (i0 + 1) (q + 1)
        (by
          show (e.header.sequenceNumber : Int) - (i0 : Int)
              + ((i0 + 1 : Nat) : Int) = ((q + 1 : Nat) : Int)
          rw [hseq2.1]
          push_cast
          ring) hseq2.2
        (fun x hx => by
          have h1 := hts x (by simp [hx])
          have h2 := hts e (by simp)
          show x.header.timestamp = e.header.timestamp
          rw [h1, ← h2])
        (fun x hx => hinner x (by
          simp only [List.dropLast_cons₂, List.mem_cons]
          exact Or.inr hx))
        (fun x hx => hlast x (by rw [List.getLast?_cons_cons]; exact hx))
        (by simp)
      have harith : (i0 + 1) + (e2 :: es2).length
          = i0 + (e :: e2 :: es2).length := by
        simp only [List.length_cons]
        omega
      rw [harith] at hrec
      exact hrec
/-- The scan of the flattened groups yields exactly their boundaries. -/
theorem segScan_groups :
    ∀ (gs : List (List Entry)) (i0 q : Nat) (acc : List (Nat × Nat)),
      (∀ g ∈ gs, GroupWF g) → ConsecFrom q gs →
      segScan gs.flatten i0 none acc
        = acc ++ boundaries i0 (gs.map List.length) := by
  intro gs
  induction gs with
  | nil =>
    intro i0 q acc _ _
    simp [segScan, boundaries]
  | cons g gs ih =>
    intro i0 q acc hwf hcs
    rw [List.flatten_cons,
      segScan_group g gs.flatten acc i0 q (hwf g (by simp)) hcs.1,
      ih (i0 + g.length) (q + g.length) _
        (fun x hx => hwf x (by simp [hx])) hcs.2]
    simp [boundaries]

/-- Element lookup in a consecutively numbered entry list. -/
theorem seq_getElem (g : List Entry) (q i : Nat)
    (hseq : g.map (fun e => e.header.sequenceNumber) = List.range' q g.length)
    (hi : i < g.length) :
    (g[i]?).map (fun e => e.header.sequenceNumber) = some (q + i) := by
  have h1 : (g.map (fun e => e.header.sequenceNumber))[i]?
      = (g[i]?).map (fun e => e.header.sequenceNumber) := List.getElem?_map ..
  rw [← h1, hseq, List.getElem?_range' q 1 hi, one_mul]

/-- is_following_last at segment start 0: true with no emission history, and
true when the first queued entry is the successor of the last emitted
sequence number. -/
theorem isFollowingLast_zero {S : Type} (s : SampleBuilderS S) (q : Nat)
    (e : Entry) (hq : s.queue.head? = some e)
    (hseq : e.header.sequenceNumber = q)
    (hle : s.lastEmitted = none ∨ s.lastEmitted = some (q - 1) ∧ 1 ≤ q) :
    isFollowingLast s 0 = true := by
  unfold isFollowingLast
  rcases hle with h | ⟨h, hq1⟩
  · rw [h]
  · rw [h]
    simp only [List.take_zero, followLoop]
    rw [show s.queue[0]? = some e from by
      rw [← List.head?_eq_getElem? s.queue]; exact hq]
    simp only [hseq, Bool.and_eq_true, decide_eq_true_eq]
    omega

/-- Pushing a consecutively numbered packet list into a builder with no
emission history and all queued sequence numbers below the range appends the
packets' entries in order. -/
theorem pushAll_fresh_go (d : Depack S) :
    ∀ (ps : List RtpPacket) (s : SampleBuilderS S) (a : Nat),
      s.lastEmitted = none →
      ps.map (fun p => p.header.sequenceNumber) = List.range' a ps.length →
      (∀ e ∈ s.queue, e.header.sequenceNumber < a) →
      pushAll d s ps
        = { s with queue := s.queue ++ ps.map (toEntry d s.dstate) } := by
  intro ps
  induction ps with
  | nil => intro s a _ _ _; simp [pushAll]
  | cons p ps ih =>
    intro s a hle hseq hlt
    have hseq2 : p.header.sequenceNumber = a ∧
        ps.map (fun p => p.header.sequenceNumber)
          = List.range' (a + 1) ps.length := by
      rw [show List.range' a (p :: ps).length
          = a :: List.range' (a + 1) ps.length from rfl] at hseq
      exact ⟨(List.cons.inj hseq).1, (List.cons.inj hseq).2⟩
    have hdrop : pushDrop s p.header.sequenceNumber = false := by
      unfold pushDrop; rw [hle]
    have hfind : s.queue.findIdx?
        (fun e =>
          decide (p.header.sequenceNumber ≤ e.header.sequenceNumber))
        = none := by
      rw [List.findIdx?_eq_none_iff]
      intro e he
      have h1 := hlt e he
      have h2 := hseq2.1
      simp only [decide_eq_false_iff_not, not_le]
      omega
    have hbs : binarySearchSeq s.queue p.header.sequenceNumber
        = Sum.inr s.queue.length := by
      unfold binarySearchSeq; rw [hfind]
    have hpush : push d s p
        = ({ s with queue := s.queue ++ [toEntry d s.dstate p] }, true) := by
      simp only [push, hdrop, Bool.false_eq_true, if_false, hbs,
        List.insertIdx_length_self]
    show pushAll d (push d s p).1 ps = _
    rw [hpush]
    have hrec := ih { s with queue := s.queue ++ [toEntry d s.dstate p] }
      (a + 1) hle hseq2.2 (by
        intro e he
        rcases List.mem_append.mp he with h1 | h2
        · have := hlt e h1
          omega
        · have he2 : e = toEntry d s.dstate p := by simpa using h2
          subst he2
          show p.header.sequenceNumber < a + 1
          have := hseq2.1
          omega)
    rw [hrec]
    simp [List.append_assoc]

/-- Pushing the whole in-order stream into a fresh builder yields the
flattened groups as the queue, all other fields untouched. -/
theorem pushAll_fresh (d : Depack S) (d0 : S) (hb rate seq0 : Nat)
    (pgs : List (Nat × List (List Nat × Bool))) :
    pushAll d (mkSampleBuilder S hb d0 rate) (packetsOf seq0 pgs)
      = ⟨hb, d0, (groupsOf d d0 seq0 pgs).flatten, [], none, none, none,
          rate, 0⟩ := by
  have h := pushAll_fresh_go d (packetsOf seq0 pgs)
    (mkSampleBuilder S hb d0 rate) seq0 rfl (packetsOf_seqs pgs seq0)
    (fun e he => absurd he (List.not_mem_nil e))
  rw [h]
  show ({ mkSampleBuilder S hb d0 rate with
      queue := [] ++ (packetsOf seq0 pgs).map (toEntry d d0) } : _) = _
  rw [List.nil_append, packetsOf_entries d d0 pgs seq0]
  rfl

/-- The stream has as many groups as the input list. -/
theorem groupsOf_length (d : Depack S) (d0 : S) :
    ∀ (pgs : List (Nat × List (List Nat × Bool))) (seq0 : Nat),
      (groupsOf d d0 seq0 pgs).length = pgs.length := by
  intro pgs
  induction pgs with
  | nil => intro seq0; rfl
  | cons g pgs ih =>
    intro seq0
    obtain ⟨t, ps⟩ := g
    simp only [groupsOf, List.length_cons, ih]

/-- pop on a builder whose queue is a flattened, well-formed, consecutively
numbered group list with empty cache: the first group is depacketized into
the ready buffer and its entries dropped, and the previously buffered sample
is returned with the duration bookkeeping of the source. -/
theorem pop_group (d : Depack S)
    (hdep : ∀ st p, ((d.depacketize st p).2).isSome = true)
    (g : List Entry) (gs : List (List Entry)) (q : Nat) (st : S)
    (ready : Option (Nat × List Nat)) (samples : Nat) (le : Option Nat)
    (hb rate : Nat) (segs : List (Nat × Nat))
    (hwf : GroupWF g) (hwfs : ∀ x ∈ gs, GroupWF x)
    (hcs : ConsecFrom q (g :: gs))
    (hle : le = none ∨ le = some (q - 1) ∧ 1 ≤ q) :
    pop d ⟨hb, st, (g :: gs).flatten, segs, le, none, ready, rate, samples⟩
      = (⟨hb, (depackFold d st g).1, gs.flatten,
            boundaries 0 ((g :: gs).map List.length),
            some (q + g.length - 1), none,
            some (tsOfGroup g, ((depackFold d st g).2).getD []), rate,
            match ready with
            | none => samples
            | some rd =>
              if 0 < tsOfGroup g - rd.1 then tsOfGroup g - rd.1
              else samples⟩,
          match ready with
          | none => none
          | some rd =>
            some ⟨rd.2,
              if 0 < tsOfGroup g - rd.1 then tsOfGroup g - rd.1
              else samples, rate⟩) := by
  rcases g with _ | ⟨e, es⟩
  · exact absurd rfl hwf.1
  have hwfall : ∀ x ∈ (e :: es) :: gs, GroupWF x := by
    intro x hx
    rcases List.mem_cons.mp hx with rfl | h2
    · exact hwf
    · exact hwfs x h2
  have hscan : segScan ((e :: es) ++ gs.flatten) 0 none []
      = boundaries 0 (((e :: es) :: gs).map List.length) := by
    have h := segScan_groups ((e :: es) :: gs) 0 q [] hwfall hcs
    simpa using h
  have hseqhead : e.header.sequenceNumber = q := by
    have h := hcs.1
    rw [show List.range' q ((e :: es)).length
        = q :: List.range' (q + 1) es.length from rfl] at h
    exact (List.cons.inj h).1
  have hsome := depackFold_isSome d hdep (e :: es) st
  obtain ⟨bytes, hbytes⟩ := Option.isSome_iff_exists.mp hsome
  have hseqstop : (((e :: es) ++ gs.flatten)[es.length]?).map
      (fun x => x.header.sequenceNumber) = some (q + es.length) := by
    rw [List.getElem?_append_left (by simp)]
    exact seq_getElem (e :: es) q es.length hcs.1 (by simp)
  have htake : ((e :: es) ++ gs.flatten).take (es.length + 1) = e :: es :=
    List.take_left (e :: es) gs.flatten
  have hdropq : ((e :: es) ++ gs.flatten).drop (es.length + 1)
      = gs.flatten :=
    List.drop_left (e :: es) gs.flatten
  simp only [List.cons_append] at hseqstop htake hdropq
  have harith : q + (e :: es).length - 1 = q + es.length := by
    simp only [List.length_cons]
    omega
  rw [harith]
  simp only [pop, updateSegments, List.flatten_cons]
  simp only [hscan]
  simp only [boundaries, List.map_cons, List.length_cons, List.head?_cons,
    Nat.zero_add, Nat.add_sub_cancel, depacketizeRange, depacketizeGo,
    Nat.sub_zero, List.drop_zero, List.cons_append, List.getElem?_cons_zero,
    Option.map_some, Option.getD_some]
  simp only [htake, hdropq, hbytes, Option.map_some, Option.getD_some,
    hseqstop, tsOfGroup]
  rcases hle with rfl | ⟨rfl, hq1⟩
  · simp only [isFollowingLast, Bool.not_true, Bool.false_and,
      Bool.false_eq_true, if_false]
    cases ready with
    | none => rfl
    | some rd =>
      by_cases hpos : 0 < e.header.timestamp - rd.1
      · simp [hpos]
      · simp [hpos]
  · have hd1 : q - 1 < q := by omega
    have hd2 : q - (q - 1) = 1 := by omega
    simp only [isFollowingLast, List.take_zero, followLoop,
      List.getElem?_cons_zero, hseqhead]
    simp only [hd1, hd2]
    have hdt : (decide True) = true := rfl
    simp only [Option.map_some, Option.getD_some, hdt, Bool.and_self,
      Bool.not_true, Bool.false_and, Bool.false_eq_true, if_false]
    cases ready with
    | none => simp
    | some rd =>
      by_cases hpos : 0 < e.header.timestamp - rd.1
      · simp [hpos]
      · simp [hpos]

/-- Successive pops on a builder holding a flattened, well-formed,
consecutively numbered group list return exactly the bookkeeping sequence of
runOutputs over the group summaries. -/
theorem popN_groups (d : Depack S)
    (hdep : ∀ st p, ((d.depacketize st p).2).isSome = true) :
    ∀ (gs : List (List Entry)) (q : Nat) (st : S)
      (ready : Option (Nat × List Nat)) (samples : Nat) (le : Option Nat)
      (hb rate : Nat) (segs : List (Nat × Nat)),
      (∀ x ∈ gs, GroupWF x) → ConsecFrom q gs →
      (le = none ∨ le = some (q - 1) ∧ 1 ≤ q) →
      (popN d ⟨hb, st, gs.flatten, segs, le, none, ready, rate, samples⟩
          gs.length).2
        = runOutputs rate ready samples (groupInfos d st gs) := by
  intro gs
  induction gs with
  | nil => intro q st ready samples le hb rate segs _ _ _; rfl
  | cons g gs ih =>
    intro q st ready samples le hb rate segs hwf hcs hle
    have hglen : 1 ≤ g.length :=
      List.length_pos.mpr (hwf g (by simp)).1
    rw [show (g :: gs).length = gs.length + 1 from rfl]
    simp only [popN]
    rw [pop_group d hdep g gs q st ready samples le hb rate segs
      (hwf g (by simp)) (fun x hx => hwf x (by simp [hx])) hcs hle]
    have hle2 : (some (q + g.length - 1) : Option Nat) = none ∨
        (some (q + g.length - 1) : Option Nat) = some (q + g.length - 1) ∧
          1 ≤ q + g.length := Or.inr ⟨rfl, by omega⟩
    have hrec := ih (q + g.length) (depackFold d st g).1
      (some (tsOfGroup g, ((depackFold d st g).2).getD []))
      (match ready with
       | none => samples
       | some rd =>
         if 0 < tsOfGroup g - rd.1 then tsOfGroup g - rd.1 else samples)
      (some (q + g.length - 1)) hb rate
      (boundaries 0 ((g :: gs).map List.length))
      (fun x hx => hwf x (by simp [hx])) hcs.2 hle2
    rw [hrec]
    simp only [groupInfos]
    cases ready with
    | none => rfl
    | some rd =>
      simp only [runOutputs]

/-- With strictly increasing timestamps, the bookkeeping sequence after the
first buffered group is the plain emission sequence. -/
theorem runOutputs_emit (rate : Nat) :
    ∀ (rest : List (Nat × List Nat)) (prev : Nat × List Nat) (samples : Nat),
      List.Chain' (· < ·) ((prev :: rest).map Prod.fst) →
      runOutputs rate (some prev) samples rest = emitSeq rate prev rest := by
  intro rest
  induction rest with
  | nil => intro prev samples _; rfl
  | cons info rest ih =>
    intro prev samples hch
    obtain ⟨t, dta⟩ := info
    have hlt : prev.1 < t := by
      simp only [List.map_cons, List.chain'_cons] at hch
      exact hch.1
    have hpos : 0 < t - prev.1 := by omega
    simp only [runOutputs, emitSeq, if_pos hpos]
    have hch2 : List.Chain' (· < ·) (((t, dta) :: rest).map Prod.fst) := by
      simp only [List.map_cons] at hch ⊢
      exact (List.chain'_cons.mp hch).2
    rw [ih (t, dta) (t - prev.1) hch2]

/-- With strictly increasing timestamps, runOutputs from an empty buffer is
the claim's output shape. -/
theorem runOutputs_claim (rate : Nat) (infos : List (Nat × List Nat))
    (hch : List.Chain' (· < ·) (infos.map Prod.fst)) :
    runOutputs rate none 0 infos = claimOutputs rate infos := by
  cases infos with
  | nil => rfl
  | cons info rest =>
    simp only [runOutputs, claimOutputs]
    rw [runOutputs_emit rate rest info 0 hch]

/-- Claim C2 counterexample: groups at timestamps 100, 200, 200 pushed in
order with hold_back 2; the third pop emits the second group with the stale
duration 100 where the claim demands timestamp[2] - timestamp[1] = 0: the
source only overwrites the duration counter when the difference is
positive. -/
theorem sample_builder_duration_cx :
    (popN idDepack
        (pushAll idDepack (mkSampleBuilder Unit 2 () 48000)
          (packetsOf 0
            [(100, [([1], true)]), (200, [([2], true)]),
             (200, [([3], true)])]))
        3).2
      = [none, some ⟨[1], 100, 48000⟩, some ⟨[2], 100, 48000⟩] ∧
    claimOutputs 48000
        (infosOf idDepack ()
          [(100, [([1], true)]), (200, [([2], true)]), (200, [([3], true)])])
      = [none, some ⟨[1], 100, 48000⟩, some ⟨[2], 0, 48000⟩] ∧
    (popN idDepack
        (pushAll idDepack (mkSampleBuilder Unit 2 () 48000)
          (packetsOf 0
            [(100, [([1], true)]), (200, [([2], true)]),
             (200, [([3], true)])]))
        3).2
      ≠ claimOutputs 48000
          (infosOf idDepack ()
            [(100, [([1], true)]), (200, [([2], true)]),
             (200, [([3], true)])]) :=
  ⟨by decide, by decide, by decide⟩

/-- Claim C2 amended: for an in-order gap-free stream of head/tail delimited
groups with strictly increasing timestamps and a total depacketizer, the
samples returned by successive pops are exactly the depacketised group
concatenations: the first pop returns nothing (one-cycle buffering) and pop
i+1 emits group i with duration timestamp[i+1] - timestamp[i] at the
builder's sample rate.  Strictness is needed: on an equal consecutive
timestamp the source keeps the previous duration instead of 0. -/
theorem sample_builder_inorder_spec {S : Type} (d : Depack S) (d0 : S)
    (pgs : List (Nat × List (List Nat × Bool))) (seq0 hb rate : Nat)
    (hdep : ∀ st p, ((d.depacketize st p).2).isSome = true)
    (hne : ∀ g ∈ pgs, g.2 ≠ [])
    (hhead : ∀ g ∈ pgs,
      ((g.2.head?.map (fun p0 => d.isHead d0 p0.1)).getD true) = true)
    (htail : ∀ g ∈ pgs,
      ((g.2.getLast?.map (fun pl => d.isTail d0 pl.2 pl.1)).getD true)
        = true)
    (hinner : ∀ g ∈ pgs, ∀ p ∈ g.2.dropLast, d.isTail d0 p.2 p.1 = false)
    (hts : List.Chain' (· < ·) (pgs.map Prod.fst))
    (_hu16 : seq0 + (packetsOf seq0 pgs).length ≤ 2 ^ 16) :
    (popN d (pushAll d (mkSampleBuilder S hb d0 rate) (packetsOf seq0 pgs))
        pgs.length).2
      = claimOutputs rate (infosOf d d0 pgs) := by
  have hhead2 : ∀ g ∈ pgs, ∀ p0, g.2.head? = some p0 →
      d.isHead d0 p0.1 = true := by
    intro g hg p0 hp0
    have h := hhead g hg
    rw [hp0] at h
    simpa using h
  have htail2 : ∀ g ∈ pgs, ∀ pl, g.2.getLast? = some pl →
      d.isTail d0 pl.2 pl.1 = true := by
    intro g hg pl hpl
    have h := htail g hg
    rw [hpl] at h
    simpa using h
  rw [pushAll_fresh d d0 hb rate seq0 pgs]
  rw [show pgs.length = (groupsOf d d0 seq0 pgs).length from
    (groupsOf_length d d0 pgs seq0).symm]
  rw [popN_groups d hdep (groupsOf d d0 seq0 pgs) seq0 d0 none 0 none hb
    rate []
    (groupsOf_wf d d0 pgs seq0 hne hhead2 htail2 hinner)
    (groupsOf_consec d d0 pgs seq0) (Or.inl rfl)]
  rw [groupInfos_eq_infosOf d d0 pgs seq0 d0 hne]
  refine runOutputs_claim rate (infosOf d d0 pgs) ?_
  rw [infosOf_ts d pgs d0]
  exact hts

/-- Witness for C2: two groups (timestamps 100 and 260, the first split over
two packets, sequence numbers 65533-65535) popped twice match the claimed
output shape. -/
theorem sample_builder_inorder_spec_witness :
    (popN idDepack
        (pushAll idDepack (mkSampleBuilder Unit 15 () 48000)
          (packetsOf 65533
            [(100, [([9], false), ([1], true)]), (260, [([2], true)])]))
        2).2
      = claimOutputs 48000
          (infosOf idDepack ()
            [(100, [([9], false), ([1], true)]), (260, [([2], true)])]) :=
  sample_builder_inorder_spec idDepack ()
    [(100, [([9], false), ([1], true)]), (260, [([2], true)])] 65533 15
    48000 (fun _ _ => rfl) (by decide) (by decide) (by decide) (by decide)
    (by simp) (by decide)

/-! ### Claim C7 — push return value and insertion -/

/-- Skipping a head entry smaller than the probe shifts the search result. -/
theorem binarySearch_cons_skip (e : Entry) (rest : List Entry) (seq : Nat)
    (hcmp : ¬(seq ≤ e.header.sequenceNumber)) :
    binarySearchSeq (e :: rest) seq =
      (match binarySearchSeq rest seq with
       | Sum.inl i => Sum.inl (i + 1)
       | Sum.inr i => Sum.inr (i + 1)) := by
  unfold binarySearchSeq
  rw [List.findIdx?_cons, if_neg (by simpa using hcmp), List.findIdx?_succ]
  cases hf : rest.findIdx? (fun x => decide (seq ≤ x.header.sequenceNumber)) with
  | none => simp
  | some j =>
    simp only [Option.map_some, List.getElem?_cons_succ]
    cases hg : rest[j]? with
    | none => simp [hg]
    | some x =>
      by_cases hx : x.header.sequenceNumber = seq <;> simp [hg, hx]

/-- Characterisation of the binary search on a sorted queue: a present key is
found; an absent key yields an insertion index at which inserting an entry
with that key keeps the queue sorted and adds exactly that entry. -/
theorem binarySearch_sorted (queue : List Entry) (seq : Nat)
    (hsort : queueSorted queue) :
    ((∃ e ∈ queue, e.header.sequenceNumber = seq) →
      ∃ i, binarySearchSeq queue seq = Sum.inl i) ∧
    ((∀ e ∈ queue, e.header.sequenceNumber ≠ seq) →
      ∃ i, binarySearchSeq queue seq = Sum.inr i ∧
        ∀ x : Entry, x.header.sequenceNumber = seq →
          queueSorted (queue.insertIdx i x) ∧
          (queue.insertIdx i x).Perm (x :: queue)) := by
  induction queue with
  | nil =>
    constructor
    · rintro ⟨e, he, _⟩
      exact absurd he (List.not_mem_nil e)
    · intro _
      exact ⟨0, rfl, fun x _ => ⟨List.pairwise_singleton _ _, List.Perm.refl _⟩⟩
  | cons e rest ih =>
    have hs1 : ∀ y ∈ rest,
        e.header.sequenceNumber < y.header.sequenceNumber :=
      (List.pairwise_cons.mp hsort).1
    have hs2 : queueSorted rest := (List.pairwise_cons.mp hsort).2
    have ihr := ih hs2
    by_cases hcmp : seq ≤ e.header.sequenceNumber
    · by_cases he : e.header.sequenceNumber = seq
      · constructor
        · intro _
          refine ⟨0, ?_⟩
          unfold binarySearchSeq
          rw [List.findIdx?_cons, if_pos (by simpa using hcmp)]
          simp [he]
        · intro hnm
          exact absurd he (hnm e (by simp))
      · have hlt : seq < e.header.sequenceNumber :=
          lt_of_le_of_ne hcmp (fun h => he h.symm)
        constructor
        · rintro ⟨e0, he0, hseq0⟩
          rcases List.mem_cons.mp he0 with rfl | hmem
          · exact absurd hseq0 he
          · have := hs1 e0 hmem
            omega
        · intro _
          refine ⟨0, ?_, ?_⟩
          · unfold binarySearchSeq
            rw [List.findIdx?_cons, if_pos (by simpa using hcmp)]
            simp [he]
          · intro x hx
            rw [List.insertIdx_zero]
            refine ⟨List.pairwise_cons.mpr ⟨?_, hsort⟩, List.Perm.refl _⟩
            intro y hy
            rcases List.mem_cons.mp hy with rfl | hmem
            · rw [hx]
              exact hlt
            · have := hs1 y hmem
              rw [hx]
              omega
    · push_neg at hcmp
      constructor
      · rintro ⟨e0, he0, hseq0⟩
        rcases List.mem_cons.mp he0 with rfl | hmem
        · omega
        · obtain ⟨i, hi⟩ := ihr.1 ⟨e0, hmem, hseq0⟩
          refine ⟨i + 1, ?_⟩
          rw [binarySearch_cons_skip e rest seq (by omega), hi]
      · intro hnm
        obtain ⟨i, hi, hins⟩ := ihr.2 (fun y hy => hnm y (by simp [hy]))
        refine ⟨i + 1, ?_, ?_⟩
        · rw [binarySearch_cons_skip e rest seq (by omega), hi]
        · intro x hx
          rw [List.insertIdx_succ_cons]
          obtain ⟨hp, hperm⟩ := hins x hx
          constructor
          · refine List.pairwise_cons.mpr ⟨?_, hp⟩
            intro y hy
            have hy2 : y ∈ x :: rest := hperm.mem_iff.mp hy
            rcases List.mem_cons.mp hy2 with rfl | hmem
            · rw [hx]
              exact hcmp
            · exact hs1 y hmem
          · exact (List.Perm.cons e hperm).trans (List.Perm.swap x e rest)

/-- Claim C7 counterexample: pushing the same packet (sequence 5) twice into a
fresh builder drops the duplicate (the queue is unchanged) yet push returns
true, so push does not return false exactly on dropped packets. -/
theorem push_duplicate_cx :
    (push h264Depack
        (push h264Depack (mkSampleBuilder Unit 15 () 48000)
          ⟨⟨5, 100, true⟩, [1]⟩).1
        ⟨⟨5, 100, true⟩, [1]⟩).2 = true ∧
    (push h264Depack
        (push h264Depack (mkSampleBuilder Unit 15 () 48000)
          ⟨⟨5, 100, true⟩, [1]⟩).1
        ⟨⟨5, 100, true⟩, [1]⟩).1.queue =
      (push h264Depack (mkSampleBuilder Unit 15 () 48000)
        ⟨⟨5, 100, true⟩, [1]⟩).1.queue := by
  decide

/-- Claim C7 amended: push returns false exactly when the early-drop test
fires (sequence at or before last emitted, hold_back positive), in which case
the builder is untouched; a duplicate sequence number is dropped (builder
untouched) but push returns TRUE; a packet passing both tests is inserted at
the binary-search position, keeping the queue sorted by sequence number. -/
theorem push_spec {S : Type} (d : Depack S) (s : SampleBuilderS S)
    (p : RtpPacket) (hsort : queueSorted s.queue) :
    ((push d s p).2 = false ↔ pushDrop s p.header.sequenceNumber = true) ∧
    (pushDrop s p.header.sequenceNumber = true ↔
      ((∃ last, s.lastEmitted = some last ∧ p.header.sequenceNumber ≤ last) ∧
        0 < s.holdBack)) ∧
    ((push d s p).2 = false → (push d s p).1 = s) ∧
    (pushDrop s p.header.sequenceNumber = false →
      (∃ e ∈ s.queue,
          e.header.sequenceNumber = p.header.sequenceNumber) →
      (push d s p).1 = s ∧ (push d s p).2 = true) ∧
    (pushDrop s p.header.sequenceNumber = false →
      (∀ e ∈ s.queue,
          e.header.sequenceNumber ≠ p.header.sequenceNumber) →
      (push d s p).2 = true ∧
      queueSorted (push d s p).1.queue ∧
      (push d s p).1.queue.Perm (toEntry d s.dstate p :: s.queue)) := by
  have hchar := binarySearch_sorted s.queue p.header.sequenceNumber hsort
  refine ⟨?_, ?_, ?_, ?_, ?_⟩
  · by_cases hd : pushDrop s p.header.sequenceNumber
    · simp [push, hd]
    · simp only [push, hd, if_false, Bool.false_eq_true, iff_false]
      cases hbs : binarySearchSeq s.queue p.header.sequenceNumber <;>
        simp [hbs]
  · unfold pushDrop
    cases hle : s.lastEmitted with
    | none => simp [hle]
    | some last => simp [hle]
  · intro hf
    by_cases hd : pushDrop s p.header.sequenceNumber
    · simp [push, hd]
    · exfalso
      revert hf
      simp only [push, hd, if_false]
      cases hbs : binarySearchSeq s.queue p.header.sequenceNumber <;>
        simp [hbs]
  · intro hd hm
    obtain ⟨i, hi⟩ := hchar.1 hm
    simp [push, hd, hi]
  · intro hd hnm
    obtain ⟨i, hi, hins⟩ := hchar.2 hnm
    obtain ⟨hp, hperm⟩ := hins (toEntry d s.dstate p) rfl
    simp only [push, hd, Bool.false_eq_true, if_false, hi]
    refine ⟨by trivial, hp, hperm⟩

/-- Witness for C7: an in-order packet after one queued entry is appended,
keeping the queue sorted. -/
theorem push_spec_witness :
    (push h264Depack
        (push h264Depack (mkSampleBuilder Unit 15 () 48000)
          ⟨⟨5, 100, true⟩, [1]⟩).1 ⟨⟨7, 200, true⟩, [2]⟩).2 = true ∧
    queueSorted
      (push h264Depack
        (push h264Depack (mkSampleBuilder Unit 15 () 48000)
          ⟨⟨5, 100, true⟩, [1]⟩).1 ⟨⟨7, 200, true⟩, [2]⟩).1.queue :=
  have h := push_spec h264Depack
    (push h264Depack (mkSampleBuilder Unit 15 () 48000)
      ⟨⟨5, 100, true⟩, [1]⟩).1 ⟨⟨7, 200, true⟩, [2]⟩ (by decide)
  have h2 := (h.2.2.2.2 (by decide) (by decide))
  ⟨h2.1, h2.2.1⟩

/-- Witness for C4 at concrete sequences: three unsigned values including
u32::MAX - 1, two in-range signed values, and two fixed-width fields. -/
theorem bitstream_roundtrip_amended_witness :
    (∃ bs, writeUeSeq [0, 7, 4294967294] = some bs ∧
      readUeSeq 3 (bs ++ []) = some ([0, 7, 4294967294], [])) ∧
    (∃ bs, writeSeSeq [-3, 4] = some bs ∧
      readSeSeq 2 (bs ++ []) = some ([-3, 4], [])) ∧
    readFSeq [1, 16] (writeFSeq [(1, 1), (16, 65535)] ++ [])
      = some ([1, 65535], []) :=
  ⟨bitstream_roundtrip_amended.1 [0, 7, 4294967294] [] (by decide),
   bitstream_roundtrip_amended.2.1 [-3, 4] [] (by decide),
   bitstream_roundtrip_amended.2.2 [(1, 1), (16, 65535)] [] (by decide)⟩

end Utsuru
